import Mathlib

/-!
Shallow embedding of the OData query engine of `theagency-db`
(`src/odata/parser.js`, `src/odata/resources/{property,member,office}.js`,
and the auth middleware), together with theorems settling the frozen
claims about it.

Modelling conventions:
* JavaScript strings are Lean `String`s, JS objects used as maps
  (`fieldMap`, `params`) are association lists `List (String × _)` in
  insertion order (JS object literals preserve insertion order).
* JS numbers are modelled as exact integers (`Int`).  The only place a
  genuinely fractional number can arise is `parseFloat` on a `$filter`
  number literal; the parser stores that value opaquely, so the token
  and the parameter keep the numeric literal's source text
  (`JSValue.numLit`) instead of modelling IEEE-754 floats.
* Fallible code returns `Except String _` (a thrown `Error` message).
-/

/-- A JavaScript value as it appears in query parameter maps and keys:
a string, an exact integer (result of `parseInt`), or the value
`parseFloat(lex)` of a numeric literal `lex`, kept as its source text. -/
inductive JSValue where
  | str (s : String)
  | num (n : Int)
  | numLit (lex : String)
  deriving DecidableEq, Repr

/-- JS truthiness of a possibly-absent string (`undefined` and `""` are
falsy). -/
def jsTruthyStr : Option String → Bool
  | none => false
  | some s => s ≠ ""

/-- JS truthiness of a `JSValue` (`""`, `0` falsy; a `parseFloat` result is
only ever used as a parameter value, never in a truthiness test, so
`numLit` is treated as truthy). -/
def jsTruthyVal : JSValue → Bool
  | .str s => s ≠ ""
  | .num n => n ≠ 0
  | .numLit _ => true

/-- Decimal digit character for `d < 10` (codepoint `48 + d`). -/
def digitChar (d : Nat) : Char := Char.ofNat (48 + d)

/-- Accumulator loop of `natToDecimal`; the first argument is fuel (the
value itself bounds the digit count, so the fuel never runs out). -/
def natToDecimalAux : Nat → Nat → List Char → List Char
  | 0, _, acc => acc
  | _ + 1, 0, acc => acc
  | fuel + 1, n + 1, acc =>
    natToDecimalAux fuel ((n + 1) / 10) (digitChar ((n + 1) % 10) :: acc)

/-- Decimal rendering of a natural number, as JS `Number.prototype.toString`
and `BigInt.prototype.toString` render non-negative integers. -/
def natToDecimal (n : Nat) : String :=
  if n = 0 then "0" else String.mk (natToDecimalAux n n [])

/-- Decimal rendering of a JS integer (used for `OFFSET`/`FETCH` counts and
`$top`/`$skip` values in links). -/
def jsIntToString (n : Int) : String :=
  if n < 0 then "-" ++ natToDecimal n.natAbs else natToDecimal n.natAbs

theorem natToDecimalAux_digits (P : Char → Prop) (hP : ∀ d, d < 10 → P (digitChar d)) :
    ∀ fuel n acc, (∀ c ∈ acc, P c) → ∀ c ∈ natToDecimalAux fuel n acc, P c := by
  intro fuel
  induction fuel with
  | zero =>
    intro n acc hacc c hc
    rw [natToDecimalAux] at hc
    exact hacc c hc
  | succ fuel ih =>
    intro n acc hacc c hc
    match n with
    | 0 =>
      rw [natToDecimalAux] at hc
      exact hacc c hc
    | m + 1 =>
      rw [natToDecimalAux] at hc
      refine ih ((m + 1) / 10) _ ?_ c hc
      intro c' hc'
      rcases List.mem_cons.mp hc' with h | h
      · exact h ▸ hP _ (Nat.mod_lt _ (by decide))
      · exact hacc c' h

/-- Every character of `natToDecimal n` is a decimal digit. -/
theorem natToDecimal_digits (n : Nat) : ∀ c ∈ (natToDecimal n).data, c.isDigit := by
  unfold natToDecimal
  split
  · decide
  · intro c hc
    refine natToDecimalAux_digits (fun c => c.isDigit = true) ?_ n n [] (by simp) c hc
    intro d hd
    interval_cases d <;> decide

/-! ## Lexer (`tokenizeFilter`, src/odata/parser.js lines 17–116) -/

/-- Token stream element as produced by `tokenizeFilter`.  A `number`
token keeps the scanned numeric lexeme (JS stores `parseFloat(lexeme)`). -/
inductive Token where
  | identifier (v : String)
  | operator (v : String)
  | logical (v : String)
  | function (v : String)
  | string (v : String)
  | number (lex : String)
  | datetime (v : String)
  | literal (v : String)
  | paren (v : String)
  | comma
  deriving DecidableEq, Repr

/-- ASCII whitespace matched by the JS regex `/\s/` (the source is only ever
fed ASCII query strings; Unicode whitespace is not modelled). -/
def jsWhitespace (c : Char) : Bool :=
  c = ' ' || c = '\t' || c = '\n' || c = '\r' || c = '\x0b' || c = '\x0c'

/-- Character class `/[\d.-]/` that starts a number-or-datetime scan. -/
def isNumStart (c : Char) : Bool := c.isDigit || c = '.' || c = '-'

/-- Character class `/[\d.:\-TZ+]/` consumed inside a datetime literal. -/
def isDatetimeChar (c : Char) : Bool :=
  c.isDigit || c = '.' || c = ':' || c = '-' || c = 'T' || c = 'Z' || c = '+'

/-- Character class `/[\d.eE+-]/` consumed inside a number literal. -/
def isNumberChar (c : Char) : Bool :=
  c.isDigit || c = '.' || c = 'e' || c = 'E' || c = '+' || c = '-'

/-- Whether position `i` of the remaining input holds a decimal digit. -/
def digitAt (l : List Char) (i : Nat) : Bool :=
  match l.get? i with
  | some c => c.isDigit
  | none => false

/-- Whether position `i` of the remaining input holds exactly `c`. -/
def charAt (l : List Char) (i : Nat) (c : Char) : Bool :=
  l.get? i = some c

/-- The regex test `/^\d{4}-\d{2}-\d{2}/` on the remaining input. -/
def isDatetimeStart (l : List Char) : Bool :=
  digitAt l 0 && digitAt l 1 && digitAt l 2 && digitAt l 3 && charAt l 4 '-' &&
    digitAt l 5 && digitAt l 6 && charAt l 7 '-' && digitAt l 8 && digitAt l 9

/-- Character class `/[a-zA-Z_]/` that starts a word. -/
def isWordStart (c : Char) : Bool := c.isAlpha || c = '_'

/-- Character class `/[a-zA-Z0-9_]/` consumed inside a word. -/
def isWordChar (c : Char) : Bool := c.isAlpha || c.isDigit || c = '_'

/-- `String.prototype.toLowerCase` (ASCII). -/
def jsToLower (s : String) : String := String.mk (s.data.map Char.toLower)

/-- `String.prototype.toUpperCase` (ASCII). -/
def jsToUpper (s : String) : String := String.mk (s.data.map Char.toUpper)

/-- String-literal scan (source lines 29–48): consumes up to and including
the closing quote, unescaping `''` to `'`; an unclosed literal consumes the
whole remaining input without error.  Input starts after the opening quote;
returns the literal's characters and the rest of the input. -/
def scanString : List Char → List Char × List Char
  | [] => ([], [])
  | '\'' :: '\'' :: rest =>
    let (v, r) := scanString rest
    ('\'' :: v, r)
  | '\'' :: rest => ([], rest)
  | c :: rest =>
    let (v, r) := scanString rest
    (c :: v, r)

theorem scanString_length : ∀ cs : List Char, (scanString cs).2.length ≤ cs.length := by
  intro cs
  induction cs using scanString.induct <;> rw [scanString] <;> simp_all <;> omega

theorem dropWhile_length_le (p : Char → Bool) :
    ∀ l : List Char, (l.dropWhile p).length ≤ l.length := by
  intro l
  induction l with
  | nil => simp
  | cons a l ih =>
    rw [List.dropWhile]
    cases h : p a
    · simp
    · simpa using Nat.le_succ_of_le ih

theorem dropWhile_cons_length_lt (p : Char → Bool) (c : Char) (cs : List Char)
    (h : p c = true) : (List.dropWhile p (c :: cs)).length < (c :: cs).length := by
  rw [List.dropWhile_cons_of_pos h]
  exact Nat.lt_succ_of_le (dropWhile_length_le p cs)

theorem isDatetimeChar_of_start (c : Char) (cs : List Char)
    (h : isDatetimeStart (c :: cs) = true) : isDatetimeChar c = true := by
  unfold isDatetimeStart digitAt at h
  simp only [Bool.and_eq_true] at h
  have : c.isDigit = true := by
    have h0 := h.1.1.1.1.1.1.1.1.1
    simpa [List.get?] using h0
  simp [isDatetimeChar, this]

theorem isNumberChar_of_numStart (c : Char) (h : isNumStart c = true) :
    isNumberChar c = true := by
  unfold isNumStart at h
  rcases Bool.or_eq_true_iff.mp h with h | h
  · rcases Bool.or_eq_true_iff.mp h with h | h <;> simp [isNumberChar, h]
  · simp [isNumberChar, h]

theorem isWordChar_of_wordStart (c : Char) (h : isWordStart c = true) :
    isWordChar c = true := by
  unfold isWordStart at h
  rcases Bool.or_eq_true_iff.mp h with h | h <;> simp [isWordChar, h]

/-- Word classification (source lines 97–108): after lower-casing, the word
is an operator, logical, function or literal keyword, else an identifier
(original case preserved). -/
def classifyWord (w : String) : Token :=
  let lw := jsToLower w
  if lw = "eq" ∨ lw = "ne" ∨ lw = "gt" ∨ lw = "ge" ∨ lw = "lt" ∨ lw = "le" then
    .operator lw
  else if lw = "and" ∨ lw = "or" ∨ lw = "not" then .logical lw
  else if lw = "contains" ∨ lw = "startswith" ∨ lw = "endswith" then .function lw
  else if lw = "null" ∨ lw = "true" ∨ lw = "false" then .literal lw
  else .identifier w

/-- The lexer loop of `tokenizeFilter` over the remaining characters. -/
def tokenizeGo : List Char → Except String (List Token)
  | [] => .ok []
  | c :: cs =>
    if jsWhitespace c then tokenizeGo cs
    else if c = '\'' then
      match tokenizeGo (scanString cs).2 with
      | .ok ts => .ok (.string (String.mk (scanString cs).1) :: ts)
      | .error e => .error e
    else if hn : isNumStart c then
      if hdt : isDatetimeStart (c :: cs) then
        match tokenizeGo (List.dropWhile isDatetimeChar (c :: cs)) with
        | .ok ts => .ok (.datetime (String.mk ((c :: cs).takeWhile isDatetimeChar)) :: ts)
        | .error e => .error e
      else
        match tokenizeGo (List.dropWhile isNumberChar (c :: cs)) with
        | .ok ts => .ok (.number (String.mk ((c :: cs).takeWhile isNumberChar)) :: ts)
        | .error e => .error e
    else if c = '(' ∨ c = ')' then
      match tokenizeGo cs with
      | .ok ts => .ok (.paren (String.mk [c]) :: ts)
      | .error e => .error e
    else if c = ',' then
      match tokenizeGo cs with
      | .ok ts => .ok (.comma :: ts)
      | .error e => .error e
    else if hw : isWordStart c then
      match tokenizeGo (List.dropWhile isWordChar (c :: cs)) with
      | .ok ts => .ok (classifyWord (String.mk ((c :: cs).takeWhile isWordChar)) :: ts)
      | .error e => .error e
    else .error ("Unexpected character in filter: " ++ String.mk [c])
termination_by cs => cs.length
decreasing_by
  · simp
  · exact Nat.lt_succ_of_le (scanString_length cs)
  · exact dropWhile_cons_length_lt _ _ _ (isDatetimeChar_of_start c cs hdt)
  · exact dropWhile_cons_length_lt _ _ _ (isNumberChar_of_numStart c hn)
  · simp
  · simp
  · exact dropWhile_cons_length_lt _ _ _ (isWordChar_of_wordStart c hw)

/-- `tokenizeFilter(filter)` (source lines 17–116). -/
def tokenizeFilter (filter : String) : Except String (List Token) :=
  tokenizeGo filter.data

/-! ## Filter compiler (`parseFilterTokens`, src/odata/parser.js lines 119–261) -/

/-- Compiled WHERE fragment `{ sql, params }`. -/
structure FilterResult where
  sql : String
  params : List (String × JSValue)
  deriving DecidableEq, Repr

/-- SQL operator table (source lines 145–152); a value outside the table
would interpolate JS `undefined` (unreachable from the lexer). -/
def opSql (v : String) : String :=
  if v = "eq" then "=" else if v = "ne" then "!=" else if v = "gt" then ">"
  else if v = "ge" then ">=" else if v = "lt" then "<" else if v = "le" then "<="
  else "undefined"

/-- LIKE-pattern wrapping of a function argument (source lines 238–247). -/
def likePattern (funcName v : String) : String :=
  if funcName = "contains" then "%" ++ v ++ "%"
  else if funcName = "startswith" then v ++ "%"
  else "%" ++ v

/-- Prepends one loop iteration's sql text and params to the result of the
remaining iterations. -/
def consRes (piece : String) (ps : List (String × JSValue)) :
    Except String (String × List (String × JSValue) × Nat) →
      Except String (String × List (String × JSValue) × Nat)
  | .ok (s, qs, i) => .ok (piece ++ s, ps ++ qs, i)
  | .error e => .error e

/-- The token walk of `parseFilterTokens`, one recursive call per source
loop iteration; `idx` is `paramIndex`.  Returns the emitted sql, the
recorded params in emission order, and the final `paramIndex`. -/
def parseTokensGo (fieldMap : List (String × String)) :
    List Token → Nat → Except String (String × List (String × JSValue) × Nat)
  | [], idx => .ok ("", [], idx)
  | .identifier v :: rest, idx =>
    if (fieldMap.lookup v).isSome then
      consRes ((fieldMap.lookup v).getD "undefined") [] (parseTokensGo fieldMap rest idx)
    else .error ("Unknown field: " ++ v)
  | .operator v :: rest, idx =>
    consRes (" " ++ opSql v ++ " ") [] (parseTokensGo fieldMap rest idx)
  | .logical v :: rest, idx =>
    consRes (" " ++ jsToUpper v ++ " ") [] (parseTokensGo fieldMap rest idx)
  | .string v :: rest, idx =>
    consRes ("@filter" ++ natToDecimal idx) [("filter" ++ natToDecimal idx, .str v)]
      (parseTokensGo fieldMap rest (idx + 1))
  | .number lex :: rest, idx =>
    consRes ("@filter" ++ natToDecimal idx) [("filter" ++ natToDecimal idx, .numLit lex)]
      (parseTokensGo fieldMap rest (idx + 1))
  | .datetime v :: rest, idx =>
    consRes ("@filter" ++ natToDecimal idx) [("filter" ++ natToDecimal idx, .str v)]
      (parseTokensGo fieldMap rest (idx + 1))
  | .literal v :: rest, idx =>
    consRes (if v = "null" then "NULL" else if v = "true" then "1"
      else if v = "false" then "0" else "") [] (parseTokensGo fieldMap rest idx)
  | .function f :: rest, idx =>
    (match rest with
     | .paren "(" :: .identifier x :: rest2 =>
       if (fieldMap.lookup x).isSome then
         (match rest2 with
          | .comma :: .string v :: rest4 =>
            (match rest4 with
             | .paren ")" :: rest5 =>
               if f = "contains" ∨ f = "startswith" ∨ f = "endswith" then
                 consRes ((fieldMap.lookup x).getD "undefined" ++ " LIKE @filter" ++
                     natToDecimal idx)
                   [("filter" ++ natToDecimal idx, .str (likePattern f v))]
                   (parseTokensGo fieldMap rest5 (idx + 1))
               else
                 consRes "" [] (parseTokensGo fieldMap rest5 (idx + 1))
             | _ => .error ("Expected ) after " ++ f))
          | .comma :: _ => .error ("Expected string value in " ++ f ++ "()")
          | _ => .error ("Expected comma in " ++ f ++ "()"))
       else .error ("Unknown field: " ++ x)
     | .paren "(" :: _ => .error ("Expected field name in " ++ f ++ "()")
     | _ => .error ("Expected ( after " ++ f))
  | .paren v :: rest, idx =>
    consRes v [] (parseTokensGo fieldMap rest idx)
  | .comma :: _, _ =>
    .error "Unexpected token: \x7b\"type\":\"comma\",\"value\":\",\"\x7d"

/-- `parseFilterTokens(tokens, fieldMap)` (source lines 119–261). -/
def parseFilterTokens (fieldMap : List (String × String)) (tokens : List Token) :
    Except String FilterResult :=
  match parseTokensGo fieldMap tokens 0 with
  | .ok (s, ps, _) => .ok ⟨s, ps⟩
  | .error e => .error e

/-- `parseFilter(filter, fieldMap)` (source lines 264–273). -/
def parseFilter (fieldMap : List (String × String)) (filter : Option String) :
    Except String FilterResult :=
  if jsTruthyStr filter then
    match (do
        let ts ← tokenizeFilter (filter.getD "")
        parseFilterTokens fieldMap ts : Except String FilterResult) with
    | .ok r => .ok r
    | .error e => .error ("Invalid $filter: " ++ e)
  else .ok ⟨"", []⟩

/-! ## Clause parsers (`parseSelect`, `parseOrderBy`, `parseExpand`,
src/odata/parser.js lines 276–330) -/

/-- JS `Array.prototype.join(sep)` (and Lean `String.intercalate`):
elements joined with the separator. -/
def joinSep (sep : String) : List String → String
  | [] => ""
  | [x] => x
  | x :: y :: rest => x ++ sep ++ joinSep sep (y :: rest)

/-- Splits a character list at every separator occurrence
(JS `String.prototype.split` with a one-character separator). -/
def splitCharsOn (sep : Char) : List Char → List (List Char)
  | [] => [[]]
  | c :: cs =>
    match splitCharsOn sep cs with
    | [] => [[]]
    | g :: gs => if c = sep then [] :: g :: gs else (c :: g) :: gs

/-- JS `s.split(sep)` for a one-character separator. -/
def jsSplit (sep : Char) (s : String) : List String :=
  (splitCharsOn sep s.data).map String.mk

/-- JS `String.prototype.trim` (ASCII whitespace). -/
def jsTrim (s : String) : String :=
  String.mk (((s.data.dropWhile jsWhitespace).reverse.dropWhile jsWhitespace).reverse)

/-- JS `fieldMap[k]`: template-literal interpolation renders a missing key
as the string `undefined`. -/
def jsLookupStr (fieldMap : List (String × String)) (k : String) : String :=
  (fieldMap.lookup k).getD "undefined"

/-- The validation loop of `parseSelect` over the comma-split field names. -/
def selectFieldsGo (fieldMap : List (String × String)) :
    List String → Except String (List String)
  | [] => .ok []
  | f :: fs =>
    if (fieldMap.lookup f).isSome then
      match selectFieldsGo fieldMap fs with
      | .ok rest => .ok (jsLookupStr fieldMap f :: rest)
      | .error e => .error e
    else .error ("Invalid field in $select: " ++ f)

/-- `parseSelect(select, fieldMap)` (source lines 276–294). -/
def parseSelect (select : Option String) (fieldMap : List (String × String)) :
    Except String String :=
  if jsTruthyStr select then
    match selectFieldsGo fieldMap ((jsSplit ',' (select.getD "")).map jsTrim) with
    | .ok dbFields =>
      .ok (if dbFields.length > 0 then joinSep ", " dbFields
        else joinSep ", " (fieldMap.map Prod.snd))
    | .error e => .error e
  else .ok (joinSep ", " (fieldMap.map Prod.snd))

/-- Splits a character list at every character satisfying `p`. -/
def splitCharsOnPred (p : Char → Bool) : List Char → List (List Char)
  | [] => [[]]
  | c :: cs =>
    match splitCharsOnPred p cs with
    | [] => [[]]
    | g :: gs => if p c then [] :: g :: gs else (c :: g) :: gs

/-- JS `part.trim().split(/\s+/)` on an already-trimmed string (the regex
split of the empty string is `[""]`; splitting at single whitespace
characters and discarding empty groups coincides with splitting at
whitespace runs). -/
def jsSplitWhitespaceRuns (s : String) : List String :=
  if s = "" then [""]
  else ((splitCharsOnPred jsWhitespace s.data).filter (· ≠ [])).map String.mk

/-- One `$orderby` entry `<name> [asc|desc]` mapped to `<column> <DIR>`
(source lines 301–311). -/
def orderEntry (fieldMap : List (String × String)) (part : String) :
    Except String String :=
  if (fieldMap.lookup ((jsSplitWhitespaceRuns (jsTrim part)).headD "")).isSome then
    .ok (jsLookupStr fieldMap ((jsSplitWhitespaceRuns (jsTrim part)).headD "") ++ " " ++
      (if ((jsSplitWhitespaceRuns (jsTrim part)).get? 1).map jsToLower = some "desc"
       then "DESC" else "ASC"))
  else .error ("Invalid field in $orderby: " ++ (jsSplitWhitespaceRuns (jsTrim part)).headD "")

/-- The mapping loop of `parseOrderBy` over the comma-split entries. -/
def orderPartsGo (fieldMap : List (String × String)) :
    List String → Except String (List String)
  | [] => .ok []
  | p :: ps =>
    match orderEntry fieldMap p with
    | .ok e =>
      match orderPartsGo fieldMap ps with
      | .ok rest => .ok (e :: rest)
      | .error err => .error err
    | .error err => .error err

/-- `parseOrderBy(orderby, fieldMap)` (source lines 297–314). -/
def parseOrderBy (orderby : Option String) (fieldMap : List (String × String)) :
    Except String String :=
  if jsTruthyStr orderby then
    match orderPartsGo fieldMap (jsSplit ',' (orderby.getD "")) with
    | .ok parts => .ok (joinSep ", " parts)
    | .error e => .error e
  else .ok ""

/-- The validation loop of `parseExpand` over the comma-split entries. -/
def checkExpansionsGo (allowedExpansions : List String) :
    List String → Except String Unit
  | [] => .ok ()
  | e :: es =>
    if e ∈ allowedExpansions then checkExpansionsGo allowedExpansions es
    else .error ("Invalid $expand: " ++ e ++ ". Allowed: " ++
      joinSep ", " allowedExpansions)

/-- `parseExpand(expand, allowedExpansions)` (source lines 317–330). -/
def parseExpand (expand : Option String) (allowedExpansions : List String) :
    Except String (List String) :=
  if jsTruthyStr expand then
    let expansions := (jsSplit ',' (expand.getD "")).map jsTrim
    match checkExpansionsGo allowedExpansions expansions with
    | .ok _ => .ok expansions
    | .error e => .error e
  else .ok []

/-! ## Query builder (`buildQuery`, src/odata/parser.js lines 333–425) -/

/-- Value of a hexadecimal digit character. -/
def hexVal (c : Char) : Option Nat :=
  if c.isDigit then some (c.toNat - 48)
  else if 'a' ≤ c ∧ c ≤ 'f' then some (c.toNat - 87)
  else if 'A' ≤ c ∧ c ≤ 'F' then some (c.toNat - 55)
  else none

/-- Digit-string value in the given radix (digits already validated). -/
def digitsToNat (radix : Nat) (l : List Char) : Nat :=
  l.foldl (fun acc c => acc * radix + (hexVal c).getD 0) 0

/-- JS `parseInt(s)` with no radix argument: skip whitespace, optional
sign, `0x`/`0X` prefix selects radix 16, longest digit prefix, `NaN`
(`none`) when no digit is consumed.  `parseInt(undefined)` parses the
string `"undefined"`, which is `NaN`. -/
def jsParseInt (s : Option String) : Option Int :=
  match s with
  | none => none
  | some str =>
    let cs := str.data.dropWhile jsWhitespace
    let (sign, cs1) : Int × List Char :=
      match cs with
      | '-' :: r => (-1, r)
      | '+' :: r => (1, r)
      | r => (1, r)
    match cs1 with
    | '0' :: x :: r2 =>
      if x = 'x' ∨ x = 'X' then
        let ds := r2.takeWhile fun c => (hexVal c).isSome
        if ds = [] then none else some (sign * (digitsToNat 16 ds : Int))
      else
        some (sign * (digitsToNat 10 ('0' :: (x :: r2).takeWhile Char.isDigit) : Int))
    | _ =>
      let ds := cs1.takeWhile Char.isDigit
      if ds = [] then none else some (sign * (digitsToNat 10 ds : Int))

/-- JS `v || d` for a `parseInt` result: `NaN` and `0` are falsy. -/
def jsOrDefault (v : Option Int) (d : Int) : Int :=
  match v with
  | none => d
  | some 0 => d
  | some n => n

/-- JS property assignment `obj[k] = v` on an insertion-ordered map. -/
def setKey : List (String × JSValue) → String × JSValue → List (String × JSValue)
  | [], kv => [kv]
  | (k, v) :: rest, kv => if k = kv.1 then (k, kv.2) :: rest else (k, v) :: setKey rest kv

/-- JS `Object.assign(tgt, src)`: existing keys are overwritten in place,
new keys appended in `src` order. -/
def jsAssign (tgt src : List (String × JSValue)) : List (String × JSValue) :=
  src.foldl setKey tgt

/-- UTF-8 encoding of one character. -/
def utf8EncodeChar (c : Char) : List Nat :=
  let n := c.toNat
  if n < 128 then [n]
  else if n < 2048 then [192 + n / 64, 128 + n % 64]
  else if n < 65536 then [224 + n / 4096, 128 + n / 64 % 64, 128 + n % 64]
  else [240 + n / 262144, 128 + n / 4096 % 64, 128 + n / 64 % 64, 128 + n % 64]

/-- UTF-8 encoding of a string. -/
def utf8Bytes (s : String) : List Nat := (s.data.map utf8EncodeChar).flatten

/-- Upper-case hexadecimal digit character for `n < 16`. -/
def hexUpper (n : Nat) : Char := if n < 10 then digitChar n else Char.ofNat (55 + n)

/-- `%XX` escape of one byte. -/
def percentByte (b : Nat) : String := String.mk ['%', hexUpper (b / 16), hexUpper (b % 16)]

/-- Characters `URLSearchParams` serialization leaves unescaped
(`application/x-www-form-urlencoded`): ASCII alphanumerics and `*-._`. -/
def formUnreserved (c : Char) : Bool :=
  (c.isAlpha && c.toNat < 128) || c.isDigit || c = '*' || c = '-' || c = '.' || c = '_'

/-- Concatenation of a per-character encoding. -/
def concatMapChars (f : Char → String) : List Char → String
  | [] => ""
  | c :: cs => f c ++ concatMapChars f cs

/-- `application/x-www-form-urlencoded` escaping of one character: space
becomes `+`, unreserved characters stay, everything else is `%XX` over its
UTF-8 bytes. -/
def formEncodeChar (c : Char) : String :=
  if c = ' ' then "+"
  else if formUnreserved c then String.mk [c]
  else String.join ((utf8EncodeChar c).map percentByte)

/-- `application/x-www-form-urlencoded` escaping of one string. -/
def formEncode (s : String) : String :=
  concatMapChars formEncodeChar s.data

/-- One serialized `key=value` pair. -/
def formPair (p : String × String) : String :=
  formEncode p.1 ++ "=" ++ formEncode p.2

/-- `URLSearchParams.prototype.toString` over pairs in insertion order:
`key=value` pairs joined with `&`. -/
def formSerialize : List (String × String) → String
  | [] => ""
  | [p] => formPair p
  | p :: q :: rest => formPair p ++ "&" ++ formSerialize (q :: rest)

/-- Raw OData query-option map (`req.query` fields used by the parser). -/
structure RawQuery where
  filter : Option String := none
  select : Option String := none
  orderby : Option String := none
  top : Option String := none
  skip : Option String := none
  count : Option String := none
  expand : Option String := none
  deriving DecidableEq, Repr

/-- The options object of `buildQuery` (source lines 333–342). -/
structure BuildOptions where
  table : String
  fieldMap : List (String × String)
  query : RawQuery
  keyField : String
  keyValue : Option JSValue := none
  baseUrl : Option String := none
  baseWhere : Option FilterResult := none

/-- The query plan returned by `buildQuery` (source lines 417–424). -/
structure QueryPlan where
  dataQuery : String
  countQuery : Option String
  params : List (String × JSValue)
  top : Int
  skip : Int
  nextLinkBuilder : Option (Int → Option String)

instance : Inhabited QueryPlan := ⟨⟨"", none, [], 0, 0, none⟩⟩

/-- The data-query template literal (source lines 382–389). -/
def mkDataQuery (selectFields table whereClause orderByClause : String)
    (skip top : Int) : String :=
  "\n    SELECT " ++ selectFields ++ "\n    FROM " ++ table ++ "\n    " ++
    whereClause ++ "\n    " ++ orderByClause ++ "\n    OFFSET " ++
    jsIntToString skip ++ " ROWS\n    FETCH NEXT " ++ jsIntToString top ++
    " ROWS ONLY\n  "

/-- The count-query template literal (source lines 392–396). -/
def mkCountQuery (table whereClause : String) : String :=
  "\n    SELECT COUNT(*) as total\n    FROM " ++ table ++ "\n    " ++
    whereClause ++ "\n  "

/-- `Object.values(fieldMap)[0]`, the deterministic default sort column
(JS renders a missing element as `undefined`). -/
def headColumn (fieldMap : List (String × String)) : String :=
  match fieldMap with
  | [] => "undefined"
  | (_, v) :: _ => v

/-- The client options the next-link closure re-propagates (source lines
407–410): each of `$select`, `$filter`, `$orderby`, `$count` that the
client supplied with a truthy value, in that order. -/
def optPairsOf (q : RawQuery) : List (String × String) :=
  (if jsTruthyStr q.select then [("$select", q.select.getD "")] else []) ++
    (if jsTruthyStr q.filter then [("$filter", q.filter.getD "")] else []) ++
    (if jsTruthyStr q.orderby then [("$orderby", q.orderby.getD "")] else []) ++
    (if jsTruthyStr q.count then [("$count", q.count.getD "")] else [])

/-- All `URLSearchParams` pairs set by the next-link closure, in insertion
order: `$top`, `$skip`, then the re-propagated client options. -/
def nextLinkPairs (top nextSkip : Int) (q : RawQuery) : List (String × String) :=
  [("$top", jsIntToString top), ("$skip", jsIntToString nextSkip)] ++ optPairsOf q

/-- Source line 344: `top = Math.min(Math.max(parseInt(query.$top) || 100, 1), 1000)`. -/
def topOf (q : RawQuery) : Int :=
  min (max (jsOrDefault (jsParseInt q.top) 100) 1) 1000

/-- Source line 345: `skip = Math.max(parseInt(query.$skip) || 0, 0)`. -/
def skipOf (q : RawQuery) : Int :=
  max (jsOrDefault (jsParseInt q.skip) 0) 0

/-- Source lines 355–359: the optional `baseWhere` contribution to the
WHERE conditions and the params map. -/
def baseWhereParts (bw : Option FilterResult) :
    List String × List (String × JSValue) :=
  match bw with
  | some b => if b.sql ≠ "" then ([b.sql], jsAssign [] b.params) else ([], [])
  | none => ([], [])

/-- Source lines 352–371: the WHERE conditions and params; a truthy
`keyValue` wins over `$filter`. -/
def wherePartsOf (o : BuildOptions) :
    Except String (List String × List (String × JSValue)) :=
  let base := baseWhereParts o.baseWhere
  if (o.keyValue.map jsTruthyVal).getD false then
    .ok (base.1 ++ [jsLookupStr o.fieldMap o.keyField ++ " = @keyValue"],
      setKey base.2 ("keyValue", o.keyValue.getD (.str "")))
  else if jsTruthyStr o.query.filter then
    match parseFilter o.fieldMap o.query.filter with
    | .ok f =>
      .ok (if f.sql ≠ "" then (base.1 ++ [f.sql], jsAssign base.2 f.params) else base)
    | .error e => .error e
  else .ok base

/-- Source lines 373–375: the WHERE clause text. -/
def whereClauseOf (whereConditions : List String) : String :=
  if whereConditions.length > 0 then
    "WHERE " ++ joinSep " AND " whereConditions
  else ""

/-- Source line 379: the ORDER BY clause, defaulting to the field map's
first column. -/
def orderClauseOf (orderBy : String) (fieldMap : List (String × String)) : String :=
  if orderBy ≠ "" then "ORDER BY " ++ orderBy
  else "ORDER BY " ++ headColumn fieldMap

/-- Source lines 401–414: the next-link closure over a total count. -/
def nextLinkFn (baseUrl : String) (top skip : Int) (q : RawQuery) :
    Int → Option String := fun totalCount =>
  if skip + top < totalCount then
    some (baseUrl ++ "?" ++ formSerialize (nextLinkPairs top (skip + top) q))
  else none

/-- Source lines 398–415: the closure is built only under a truthy `baseUrl`. -/
def nextLinkBuilderOf (o : BuildOptions) : Option (Int → Option String) :=
  if jsTruthyStr o.baseUrl then
    some (nextLinkFn (o.baseUrl.getD "") (topOf o.query) (skipOf o.query) o.query)
  else none

/-- `buildQuery(options)` (source lines 333–425), assembled from the named
pieces above; throw order (`parseSelect`, then `$filter`, then
`parseOrderBy`) follows the source. -/
def buildQuery (o : BuildOptions) : Except String QueryPlan := do
  let selectFields ← parseSelect o.query.select o.fieldMap
  let wp ← wherePartsOf o
  let orderBy ← parseOrderBy o.query.orderby o.fieldMap
  pure { dataQuery := mkDataQuery selectFields o.table (whereClauseOf wp.1)
           (orderClauseOf orderBy o.fieldMap) (skipOf o.query) (topOf o.query),
         countQuery :=
           if o.query.count = some "true" then
             some (mkCountQuery o.table (whereClauseOf wp.1))
           else none,
         params := wp.2,
         top := topOf o.query,
         skip := skipOf o.query,
         nextLinkBuilder := nextLinkBuilderOf o }

/-! ## SHA-256 (Node `crypto.createHash('sha256')`), needed by the Property
key codec (`encodeListingKey`, src/odata/resources/property.js lines 6–12) -/

/-- Truncation to a 32-bit word. -/
def w32 (n : Nat) : Nat := n % 4294967296

/-- 32-bit right rotation (input below `2^32`). -/
def rotr32 (x n : Nat) : Nat := x / 2 ^ n + x % 2 ^ n * 2 ^ (32 - n)

/-- SHA-256 `Σ0`. -/
def bsig0 (x : Nat) : Nat := (rotr32 x 2) ^^^ (rotr32 x 13) ^^^ (rotr32 x 22)

/-- SHA-256 `Σ1`. -/
def bsig1 (x : Nat) : Nat := (rotr32 x 6) ^^^ (rotr32 x 11) ^^^ (rotr32 x 25)

/-- SHA-256 `σ0`. -/
def ssig0 (x : Nat) : Nat := (rotr32 x 7) ^^^ (rotr32 x 18) ^^^ (x / 2 ^ 3)

/-- SHA-256 `σ1`. -/
def ssig1 (x : Nat) : Nat := (rotr32 x 17) ^^^ (rotr32 x 19) ^^^ (x / 2 ^ 10)

/-- SHA-256 `Ch`. -/
def shaCh (x y z : Nat) : Nat := (x &&& y) ^^^ ((x ^^^ 4294967295) &&& z)

/-- SHA-256 `Maj`. -/
def shaMaj (x y z : Nat) : Nat := (x &&& y) ^^^ (x &&& z) ^^^ (y &&& z)

/-- SHA-256 round constants. -/
def sha256K : List Nat := [
  1116352408, 1899447441, 3049323471, 3921009573, 961987163,
  1508970993, 2453635748, 2870763221, 3624381080, 310598401,
  607225278, 1426881987, 1925078388, 2162078206, 2614888103,
  3248222580, 3835390401, 4022224774, 264347078, 604807628,
  770255983, 1249150122, 1555081692, 1996064986, 2554220882,
  2821834349, 2952996808, 3210313671, 3336571891, 3584528711,
  113926993, 338241895, 666307205, 773529912, 1294757372,
  1396182291, 1695183700, 1986661051, 2177026350, 2456956037,
  2730485921, 2820302411, 3259730800, 3345764771, 3516065817,
  3600352804, 4094571909, 275423344, 430227734, 506948616,
  659060556, 883997877, 958139571, 1322822218, 1537002063,
  1747873779, 1955562222, 2024104815, 2227730452, 2361852424,
  2428436474, 2756734187, 3204031479, 3329325298]

/-- SHA-256 initial hash state. -/
def sha256H0 : List Nat := [
  1779033703, 3144134277, 1013904242, 2773480762,
  1359893119, 2600822924, 528734635, 1541459225]

/-- Big-endian 64-bit byte rendering of a length (in bits). -/
def be64 (n : Nat) : List Nat :=
  [n / 2 ^ 56 % 256, n / 2 ^ 48 % 256, n / 2 ^ 40 % 256, n / 2 ^ 32 % 256,
   n / 2 ^ 24 % 256, n / 2 ^ 16 % 256, n / 2 ^ 8 % 256, n % 256]

/-- SHA-256 message padding: `0x80`, zeros to 56 mod 64, 64-bit bit length. -/
def sha256Pad (msg : List Nat) : List Nat :=
  let l := msg.length
  msg ++ [128] ++ List.replicate ((120 - (l + 1) % 64) % 64) 0 ++ be64 (l * 8)

/-- Big-endian 32-bit words from bytes. -/
def bytesToWords : List Nat → List Nat
  | a :: b :: c :: d :: rest => (((a * 256 + b) * 256 + c) * 256 + d) :: bytesToWords rest
  | _ => []

/-- Big-endian bytes of one 32-bit word. -/
def wordToBytes (w : Nat) : List Nat :=
  [w / 16777216 % 256, w / 65536 % 256, w / 256 % 256, w % 256]

/-- Extends the 16 words of a chunk to the 64-word message schedule. -/
def sha256Extend (ws : Array Nat) : Array Nat :=
  (List.range 48).foldl (fun a i =>
    a.push (w32 (ssig1 (a.getD (i + 14) 0) + a.getD (i + 9) 0 +
      ssig0 (a.getD (i + 1) 0) + a.getD i 0))) ws

/-- One SHA-256 compression round. -/
def sha256Round (ws : Array Nat) (st : List Nat) (i : Nat) : List Nat :=
  let a := st.getD 0 0
  let b := st.getD 1 0
  let c := st.getD 2 0
  let d := st.getD 3 0
  let e := st.getD 4 0
  let f := st.getD 5 0
  let g := st.getD 6 0
  let h := st.getD 7 0
  let t1 := w32 (h + bsig1 e + shaCh e f g + sha256K.getD i 0 + ws.getD i 0)
  let t2 := w32 (bsig0 a + shaMaj a b c)
  [w32 (t1 + t2), a, b, c, w32 (d + t1), e, f, g]

/-- Processes one 64-byte chunk into the hash state. -/
def sha256Chunk (H : List Nat) (chunk : List Nat) : List Nat :=
  let ws := sha256Extend (Array.mk (bytesToWords chunk))
  let st := (List.range 64).foldl (sha256Round ws) H
  (H.zip st).map fun p => w32 (p.1 + p.2)

/-- Splits a padded message into 64-byte chunks. -/
def chunks64 : List Nat → List (List Nat)
  | [] => []
  | c :: rest => (c :: rest).take 64 :: chunks64 ((c :: rest).drop 64)
termination_by l => l.length
decreasing_by simp [List.length_drop]; omega

/-- SHA-256 digest (32 bytes) of a byte sequence. -/
def sha256 (msg : List Nat) : List Nat :=
  (((chunks64 (sha256Pad msg)).foldl sha256Chunk sha256H0).map wordToBytes).flatten

/-! ## Property key codec and resource drivers
(src/odata/resources/{property,member,office}.js) -/

/-- Node `buf.readBigUInt64BE(0)`: the first 8 bytes as a big-endian
unsigned integer. -/
def readBigUInt64BE (bytes : List Nat) : Nat :=
  (bytes.take 8).foldl (fun acc b => acc * 256 + b) 0

/-- `encodeListingKey(str)` (property.js lines 6–12): `null` for a falsy
input, else the first 8 digest bytes of SHA-256, big-endian, masked to
63 bits, rendered in decimal (`BigInt.prototype.toString`). -/
def encodeListingKey (s : String) : Option String :=
  if s = "" then none
  else some (natToDecimal (readBigUInt64BE (sha256 (utf8Bytes s)) &&& 0x7FFFFFFFFFFFFFFF))

/-- Property resource constants (property.js lines 14–51). -/
def propertyTable : String := "idc_agy.AGY_CMNCMN_VW"

/-- Property field map: RESO name → backend column, declaration order. -/
def propertyFieldMap : List (String × String) := [
  ("ListingKey", "IDCPROPERTYID"),
  ("ListingId", "IDCMLSNUMBER"),
  ("OriginatingSystemName", "MLSBOARD"),
  ("ListPrice", "IDCLISTPRICE"),
  ("StandardStatus", "IDCSTATUS"),
  ("ListingContractDate", "IDCLISTDATE"),
  ("PropertyType", "PROPERTYTYPE"),
  ("YearBuilt", "YEARBUILT"),
  ("BedroomsTotal", "BEDS"),
  ("BathroomsTotalInteger", "BATHSTOTAL"),
  ("LivingArea", "SQFT"),
  ("LotSizeArea", "LOTSIZE"),
  ("LotSizeAcres", "ACRES"),
  ("UnparsedAddress", "IDCADDRESS"),
  ("StreetNumber", "STREETNUMBER"),
  ("StreetName", "STREETNAME"),
  ("City", "CITY"),
  ("StateOrProvince", "STATE"),
  ("PostalCode", "ZIPCODE"),
  ("CountyOrParish", "COUNTY"),
  ("Country", "COUNTRY"),
  ("Latitude", "IDCLATITUDE"),
  ("Longitude", "IDCLONGITUDE"),
  ("PublicRemarks", "IDCREMARKS"),
  ("ListAgentKey", "IDCLISTAGENTKEY"),
  ("ListOfficeKey", "IDCLISTOFFICEKEY"),
  ("ListingURL", "LISTINGDETAILURL"),
  ("ModificationTimestamp", "LASTMODIFIED"),
  ("PhotoCount", "MLSPHOTOCOUNT"),
  ("PhotosChangeTimestamp", "PHOTOMODIFIEDDATE"),
  ("_PhotosXML", "PROPERTYPHOTOS")]

/-- Member resource constants (member.js lines 4–28). -/
def memberTable : String := "idc_agy.AGY_AGENT"

/-- Member field map: RESO name → backend column, declaration order. -/
def memberFieldMap : List (String × String) := [
  ("MemberKey", "AGENTKEY"),
  ("MemberMlsId", "AGYAGENTID"),
  ("MemberFirstName", "GIVENNAME"),
  ("MemberMiddleName", "MIDDLENAME"),
  ("MemberLastName", "SURNAME"),
  ("MemberEmail", "EMAILADDRESS1"),
  ("MemberMobilePhone", "MOBILEPHONE"),
  ("MemberOfficePhone", "BUSINESSPHONE"),
  ("MemberAddress1", "STREET"),
  ("MemberCity", "CITY"),
  ("MemberStateOrProvince", "STATE"),
  ("MemberPostalCode", "ZIPCODE"),
  ("MemberStateLicense", "LICENSENO"),
  ("MemberTitle", "PROFESSIONALTITLE"),
  ("MemberComments", "BIOGRAPHY"),
  ("MemberPhotoURL", "PICTURE"),
  ("MemberWebsiteURL", "AGENTPROFILEURL"),
  ("OfficeKey", "PARENTOFFICE"),
  ("ModificationTimestamp", "LASTMODIFIED")]

/-- Office resource constants (office.js lines 4–22). -/
def officeTable : String := "idc_agy.AGY_OFFICE"

/-- Office field map: RESO name → backend column, declaration order. -/
def officeFieldMap : List (String × String) := [
  ("OfficeKey", "OFFICEKEY"),
  ("OfficeName", "OFFICENAME"),
  ("OfficeAddress1", "STREET"),
  ("OfficeCity", "CITY"),
  ("OfficeStateOrProvince", "STATE"),
  ("OfficePostalCode", "ZIPCODE"),
  ("OfficeCountry", "COUNTRY"),
  ("OfficePhone", "PHONE"),
  ("OfficeFax", "FAX"),
  ("OfficeEmail", "EMAILADDRESS1"),
  ("OfficeLatitude", "IDCLATITUDE"),
  ("OfficeLongitude", "IDCLONGITUDE"),
  ("ModificationTimestamp", "LASTMODIFIED")]

/-- Strips one pair of surrounding single quotes from a route key
(`key.startsWith("'") && key.endsWith("'")`, then `key.slice(1, -1)`). -/
def stripQuotes (s : String) : String :=
  if s.data.head? = some '\'' ∧ s.data.getLast? = some '\'' then
    String.mk (s.data.drop 1).dropLast
  else s

/-- The lookup key computed by the Member `get` handler (member.js lines
77–81): strip quotes, then `key = parseInt(key) || key`. -/
def memberGetKeyValue (raw : String) : JSValue :=
  match jsParseInt (some (stripQuotes raw)) with
  | none => .str (stripQuotes raw)
  | some n => if n = 0 then .str (stripQuotes raw) else .num n

/-- The lookup key computed by the Office `get` handler (office.js lines
71–75), identical to the Member one. -/
def officeGetKeyValue (raw : String) : JSValue :=
  match jsParseInt (some (stripQuotes raw)) with
  | none => .str (stripQuotes raw)
  | some n => if n = 0 then .str (stripQuotes raw) else .num n

/-- The query plan built by the Property `get` handler (property.js lines
241–261): the stripped route key is passed directly as `keyValue`; no
decoding happens. -/
def propertyGetPlan (rawKey : String) (q : RawQuery) : Except String QueryPlan :=
  buildQuery { table := propertyTable, fieldMap := propertyFieldMap, query := q,
               keyField := "ListingKey", keyValue := some (.str (stripQuotes rawKey)) }

/-- The `(sql, params)` pair the Property `get` handler hands to
`db.query` (property.js line 263); `none` only when `buildQuery` throws. -/
def propertyGetIssuedQuery (rawKey : String) (q : RawQuery) :
    Option (String × List (String × JSValue)) :=
  match propertyGetPlan rawKey q with
  | .ok plan => some (plan.dataQuery, plan.params)
  | .error _ => none

/-- The statements a list handler executes for a plan (property.js lines
199–202, likewise member.js/office.js): the data query, and the count
query when present, both with the one `params` map of the plan. -/
def issuedQueries (plan : QueryPlan) : List (String × List (String × JSValue)) :=
  (plan.dataQuery, plan.params) ::
    (match plan.countQuery with
     | some c => [(c, plan.params)]
     | none => [])

/-! ## Auth middleware (src/unnamed/part_004 lines 110–154) -/

/-- A token-store row as seen by the middleware. -/
structure TokenData where
  clientId : String
  expiresAt : Int
  deriving DecidableEq, Repr

/-- OAuth configuration from the environment (`OAUTH_CLIENT_ID`,
`OAUTH_CLIENT_SECRET`; `undefined` when not set). -/
structure AuthConfig where
  clientId : Option String
  clientSecret : Option String
  deriving DecidableEq, Repr

/-- Outcome of the middleware: pass through to the next handler (with the
`clientId` it attached to the request, if any) or reject with 401. -/
inductive AuthResult where
  | next (clientId : Option String)
  | unauthorized (message : String)
  deriving DecidableEq, Repr

/-- Middleware outcome plus the token-store traffic it generated. -/
structure MiddlewareTrace where
  result : AuthResult
  lookups : List String
  deletions : List String
  deriving DecidableEq, Repr

/-- `middleware(req, res, next)` (part_004 lines 110–154): skip auth
entirely when OAuth is not configured; else require a `Bearer` header,
a known token, and an unexpired token. -/
def authMiddleware (cfg : AuthConfig) (authHeader : Option String)
    (store : String → Option TokenData) (now : Int) : MiddlewareTrace :=
  if ¬ (jsTruthyStr cfg.clientId ∧ jsTruthyStr cfg.clientSecret) then
    ⟨.next none, [], []⟩
  else if ¬ jsTruthyStr authHeader ∨
      ¬ ((authHeader.getD "").data.take 7 = "Bearer ".data) then
    ⟨.unauthorized
      "Missing or invalid Authorization header. Use: Authorization: Bearer <token>",
      [], []⟩
  else
    let token := String.mk ((authHeader.getD "").data.drop 7)
    match store token with
    | none => ⟨.unauthorized "Invalid or expired token", [token], []⟩
    | some td =>
      if td.expiresAt < now then ⟨.unauthorized "Token has expired", [token], [token]⟩
      else ⟨.next (some td.clientId), [token], []⟩

/-! ## Substring occurrence (for statements about emitted SQL text) -/

/-- `needle` is a prefix of `hay`. -/
def prefixMatch : List Char → List Char → Bool
  | [], _ => true
  | _ :: _, [] => false
  | a :: as, b :: bs => a = b && prefixMatch as bs

/-- `needle` occurs contiguously in `hay`. -/
def hasSubList (needle : List Char) : List Char → Bool
  | [] => needle.isEmpty
  | c :: cs => prefixMatch needle (c :: cs) || hasSubList needle cs

/-- JS `hay.includes(sub)`: `sub` is a contiguous substring of `hay`. -/
def strIncludes (hay sub : String) : Bool := hasSubList sub.data hay.data

theorem prefixMatch_self_append (l r : List Char) : prefixMatch l (l ++ r) = true := by
  induction l with
  | nil => rfl
  | cons a as ih => simpa [prefixMatch] using ih

theorem hasSubList_of_prefixMatch (sub : List Char) :
    ∀ hay, prefixMatch sub hay = true → hasSubList sub hay = true := by
  intro hay h
  cases hay with
  | nil =>
    cases sub with
    | nil => rfl
    | cons a as => exact absurd h (by simp [prefixMatch])
  | cons c cs => simp [hasSubList, h]

theorem hasSubList_append_left (sub : List Char) :
    ∀ pre hay, hasSubList sub hay = true → hasSubList sub (pre ++ hay) = true := by
  intro pre
  induction pre with
  | nil => simp
  | cons p ps ih =>
    intro hay h
    simp only [List.cons_append, hasSubList, Bool.or_eq_true]
    exact Or.inr (ih hay h)

/-- A string occurs in any concatenation that contains it as a segment. -/
theorem strIncludes_mid (a s b : String) : strIncludes (a ++ (s ++ b)) s = true := by
  unfold strIncludes
  rw [String.data_append, String.data_append]
  exact hasSubList_append_left s.data a.data (s.data ++ b.data)
    (hasSubList_of_prefixMatch s.data (s.data ++ b.data)
      (prefixMatch_self_append s.data b.data))

/-! ## Theorems for the frozen claims -/

/-- C3: for every non-empty backend `ListingKey` string, `encodeListingKey`
equals SHA-256 of the UTF-8 bytes, first 8 digest bytes read big-endian,
high bit masked (the value fits in a signed 63-bit integer), rendered in
decimal; encoding is deterministic and the output is decimal digits only. -/
theorem encodeListingKey_correct (s : String) (h : s ≠ "") :
    encodeListingKey s =
      some (natToDecimal (readBigUInt64BE (sha256 (utf8Bytes s)) &&& (2 ^ 63 - 1))) ∧
    readBigUInt64BE (sha256 (utf8Bytes s)) &&& (2 ^ 63 - 1) < 2 ^ 63 ∧
    (∀ t : String, s = t → encodeListingKey s = encodeListingKey t) ∧
    (∀ out, encodeListingKey s = some out → ∀ c ∈ out.data, c.isDigit) := by
  have hmask : (0x7FFFFFFFFFFFFFFF : Nat) = 2 ^ 63 - 1 := by norm_num
  refine ⟨?_, ?_, ?_, ?_⟩
  · unfold encodeListingKey
    rw [if_neg h, hmask]
  · exact lt_of_le_of_lt Nat.and_le_right (by norm_num)
  · intro t ht
    rw [ht]
  · intro out hout c hc
    unfold encodeListingKey at hout
    rw [if_neg h] at hout
    have heq : natToDecimal (readBigUInt64BE (sha256 (utf8Bytes s)) &&& 0x7FFFFFFFFFFFFFFF) = out := by
      injection hout
    subst heq
    exact natToDecimal_digits _ c hc

/-- Witness for C3 at the backend key `"MLS-2024-00001"`. -/
theorem encodeListingKey_correct_witness :
    ("MLS-2024-00001" : String) ≠ "" ∧
    (encodeListingKey "MLS-2024-00001" =
      some (natToDecimal
        (readBigUInt64BE (sha256 (utf8Bytes "MLS-2024-00001")) &&& (2 ^ 63 - 1))) ∧
    readBigUInt64BE (sha256 (utf8Bytes "MLS-2024-00001")) &&& (2 ^ 63 - 1) < 2 ^ 63 ∧
    (∀ t : String, "MLS-2024-00001" = t →
      encodeListingKey "MLS-2024-00001" = encodeListingKey t) ∧
    (∀ out, encodeListingKey "MLS-2024-00001" = some out → ∀ c ∈ out.data, c.isDigit)) :=
  ⟨by decide, encodeListingKey_correct "MLS-2024-00001" (by decide)⟩

/-- C2 (code bug): for the route key `'NOTFOUND'` the Property `get`
handler builds and issues a database query whose `keyValue` parameter is
the raw stripped key `"NOTFOUND"`, although no backend key decodes to it
(every codec output is decimal digits only), so the claimed
decode-then-404-without-query never happens. -/
theorem propertyGet_key_not_decoded :
    (∃ q, propertyGetIssuedQuery "'NOTFOUND'" {} = some q ∧
      q.2.lookup "keyValue" = some (.str "NOTFOUND")) ∧
    ¬ ∃ b : String, encodeListingKey b = some "NOTFOUND" := by
  constructor
  · exact ⟨_, rfl, by decide⟩
  · rintro ⟨b, hb⟩
    unfold encodeListingKey at hb
    by_cases h : b = ""
    · rw [if_pos h] at hb
      exact Option.noConfusion hb
    · rw [if_neg h] at hb
      have heq : natToDecimal
          (readBigUInt64BE (sha256 (utf8Bytes b)) &&& 0x7FFFFFFFFFFFFFFF) = "NOTFOUND" := by
        injection hb
      have hd := natToDecimal_digits
        (readBigUInt64BE (sha256 (utf8Bytes b)) &&& 0x7FFFFFFFFFFFFFFF)
      rw [heq] at hd
      exact absurd (hd 'N' (by decide)) (by decide)

/-- C9 (counterexample): the route key `'0'`: `parseInt` yields `0`, not
`NaN`, yet `parseInt(key) || key` falls back to the original string, so
the lookup key is the string `"0"`, not the integer `0` which the claim
requires. -/
theorem memberGet_key_zero_is_string :
    jsParseInt (some "0") = some 0 ∧
    memberGetKeyValue "0" = .str "0" ∧ memberGetKeyValue "0" ≠ .num 0 ∧
    officeGetKeyValue "0" = .str "0" ∧ officeGetKeyValue "0" ≠ .num 0 := by
  decide

/-- C9 (amended): the Member and Office `get` handlers strip quotes, parse
the key as an integer, and use the integer whenever it is non-zero; they
fall back to the original string exactly when `parseInt` yields `NaN` or
`0` (JS `parseInt(key) || key`). -/
theorem memberOfficeGet_key_parse (raw : String) :
    (∀ n : Int, jsParseInt (some (stripQuotes raw)) = some n → n ≠ 0 →
      memberGetKeyValue raw = .num n ∧ officeGetKeyValue raw = .num n) ∧
    ((jsParseInt (some (stripQuotes raw)) = none ∨
        jsParseInt (some (stripQuotes raw)) = some 0) →
      memberGetKeyValue raw = .str (stripQuotes raw) ∧
      officeGetKeyValue raw = .str (stripQuotes raw)) := by
  constructor
  · intro n hn hnz
    unfold memberGetKeyValue officeGetKeyValue
    rw [hn]
    simp [hnz]
  · intro h
    unfold memberGetKeyValue officeGetKeyValue
    rcases h with h | h <;> rw [h] <;> simp

/-- Witness for C9 (amended) at the route keys `'7'` and `'05'` (the
latter parses as the integer 5: a leading zero does not change the
decimal parse). -/
theorem memberOfficeGet_key_parse_witness :
    (memberGetKeyValue "'7'" = .num 7 ∧ officeGetKeyValue "'7'" = .num 7) ∧
    (memberGetKeyValue "'05'" = .num 5 ∧ officeGetKeyValue "'05'" = .num 5) :=
  ⟨(memberOfficeGet_key_parse "'7'").1 7 (by decide) (by decide),
   (memberOfficeGet_key_parse "'05'").1 5 (by decide) (by decide)⟩

/-- C8 (counterexample): the input `'abc` opens a string literal that is
never closed, yet the lexer succeeds with a string token instead of
failing with a parse error. -/
theorem tokenizeFilter_unclosed_is_ok :
    tokenizeFilter "'abc" = .ok [.string "abc"] := by
  simp +decide [tokenizeFilter, tokenizeGo, scanString]

/-- The lexer's quote-state automaton: `true` means the walk is inside a
string literal (where `''` is an escaped quote, mirroring `scanString`).
The input "contains an unterminated string literal" exactly when the walk
of the whole input from state `false` ends in state `true`. -/
def openLiteralState : Bool → List Char → Bool
  | b, [] => b
  | true, '\'' :: '\'' :: rest => openLiteralState true rest
  | true, '\'' :: rest => openLiteralState false rest
  | false, '\'' :: rest => openLiteralState true rest
  | b, _ :: rest => openLiteralState b rest

/-- Whether a literal body scanned from inside a literal never closes:
no unescaped closing quote up to the end of the input. -/
def unclosedScan : List Char → Bool
  | [] => true
  | '\'' :: '\'' :: rest => unclosedScan rest
  | '\'' :: _ => false
  | _ :: rest => unclosedScan rest

/-- Collapses every escaped pair `''` to a single quote (the unescaping
the scanner applies to a literal body). -/
def collapseQuotes : List Char → List Char
  | [] => []
  | '\'' :: '\'' :: rest => '\'' :: collapseQuotes rest
  | c :: rest => c :: collapseQuotes rest

theorem openLiteralState_cons (b : Bool) (c : Char) (r : List Char)
    (hc : c ≠ '\'') : openLiteralState b (c :: r) = openLiteralState b r := by
  cases b <;> rw [openLiteralState] <;> intros <;> simp_all

theorem openLiteralState_quote (r : List Char) :
    openLiteralState false ('\'' :: r) = openLiteralState true r := by
  rw [openLiteralState]

theorem openLiteralState_noquote_append (b : Bool) :
    ∀ a z : List Char, (∀ x ∈ a, x ≠ '\'') →
    openLiteralState b (a ++ z) = openLiteralState b z := by
  intro a
  induction a with
  | nil => intro z _; rfl
  | cons c r ih =>
    intro z h
    rw [List.cons_append, openLiteralState_cons b c _ (h c (List.mem_cons_self c r)),
      ih z fun x hx => h x (List.mem_cons_of_mem _ hx)]

theorem openLiteralState_true_quote (b : List Char) :
    openLiteralState true ('\'' :: b) = openLiteralState false b := by
  cases b with
  | nil => rfl
  | cons b0 bb =>
    by_cases hb : b0 = '\''
    · subst hb
      rw [openLiteralState, openLiteralState]
    · rw [openLiteralState]
      exact fun r2 hq => absurd (List.cons.inj hq).1 hb

theorem scanString_quote_cons (z : List Char) (hz : z.head? ≠ some '\'') :
    scanString ('\'' :: z) = ([], z) := by
  cases z with
  | nil => rfl
  | cons z0 zz =>
    have hz0 : z0 ≠ '\'' := fun hq => hz (by rw [hq]; rfl)
    rw [scanString]
    exact fun r1 hq => absurd (List.cons.inj hq).1 hz0

/-- An unterminated literal body is scanned to the end of the input: the
value is the body with `''` collapsed, and nothing remains. -/
theorem scanString_unclosed :
    ∀ cs : List Char, unclosedScan cs = true →
      scanString cs = (collapseQuotes cs, []) := by
  intro cs
  induction cs using scanString.induct with
  | case1 => intro h; rfl
  | case2 rest v r heq ih =>
    intro h
    have hr : unclosedScan rest = true := by rwa [unclosedScan] at h
    rw [scanString, collapseQuotes, ih hr]
  | case3 rest hno =>
    intro h
    rw [unclosedScan] at h
    · exact absurd h (by simp)
    · exact hno
  | case4 c rest h1 h2 v r heq ih =>
    intro h
    have hr : unclosedScan rest = true := by
      rw [unclosedScan] at h
      · exact h
      all_goals first | exact h1 | exact h2
    rw [scanString, collapseQuotes, ih hr]
    all_goals first | exact h1 | exact h2

/-- After a literal that does close, the remaining input never starts with
a quote (an immediately following quote would have been the escape `''`). -/
theorem scanString_rest_head :
    ∀ cs : List Char, unclosedScan cs = false →
      (scanString cs).2.head? ≠ some '\'' := by
  intro cs
  induction cs using scanString.induct with
  | case1 => intro h; simp [unclosedScan] at h
  | case2 rest v r heq ih =>
    intro h
    have hr : unclosedScan rest = false := by rwa [unclosedScan] at h
    rw [scanString]
    exact ih hr
  | case3 rest hno =>
    intro h hq
    rw [scanString] at hq
    · cases rest with
      | nil => exact absurd hq (by simp)
      | cons r0 rr =>
        exact hno rr (by rw [show r0 = '\'' from by simpa using hq])
    · exact hno
  | case4 c rest h1 h2 v r heq ih =>
    intro h
    have hr : unclosedScan rest = false := by
      rw [unclosedScan] at h
      · exact h
      all_goals first | exact h1 | exact h2
    rw [scanString]
    · exact ih hr
    all_goals first | exact h1 | exact h2

/-- Decomposition of a closing scan: the scanner consumes a concrete
prefix `cons` of the input (up to and including the closing quote); the
scan of `cons` followed by anything not starting with a quote yields the
same value and that remainder, and the quote automaton leaves `cons` in
the closed state. -/
theorem scanString_consumed :
    ∀ cs : List Char, unclosedScan cs = false →
    ∃ cons : List Char, cs = cons ++ (scanString cs).2 ∧
      (∀ z : List Char, z.head? ≠ some '\'' →
        scanString (cons ++ z) = ((scanString cs).1, z)) ∧
      (∀ b : List Char, openLiteralState true (cons ++ b) = openLiteralState false b) := by
  intro cs
  induction cs using scanString.induct with
  | case1 => intro h; simp [unclosedScan] at h
  | case2 rest v r heq ih =>
    intro h
    have hr : unclosedScan rest = false := by rwa [unclosedScan] at h
    obtain ⟨cons, hsp, hscan, hauto⟩ := ih hr
    refine ⟨'\'' :: '\'' :: cons, ?_, ?_, ?_⟩
    · rw [scanString]
      exact congrArg (fun l => '\'' :: '\'' :: l) hsp
    · intro z hz
      rw [List.cons_append, List.cons_append, scanString, hscan z hz, scanString]
    · intro b
      rw [List.cons_append, List.cons_append, openLiteralState, hauto b]
  | case3 rest hno =>
    intro h
    refine ⟨['\''], ?_, ?_, ?_⟩
    · rw [scanString]
      · rfl
      · exact hno
    · intro z hz
      rw [List.singleton_append, scanString_quote_cons z hz, scanString]
      exact hno
    · intro b
      rw [List.singleton_append, openLiteralState_true_quote]
  | case4 c rest h1 h2 v r heq ih =>
    intro h
    have hr : unclosedScan rest = false := by
      rw [unclosedScan] at h
      · exact h
      all_goals first | exact h1 | exact h2
    obtain ⟨cons, hsp, hscan, hauto⟩ := ih hr
    have hc : c ≠ '\'' := fun hq => h2 hq
    refine ⟨c :: cons, ?_, ?_, ?_⟩
    · rw [scanString]
      · exact congrArg (fun l => c :: l) hsp
      all_goals first | exact h1 | exact h2
    · intro z hz
      rw [List.cons_append, scanString, hscan z hz, scanString]
      all_goals
        first
          | rfl
          | exact h1
          | exact h2
          | exact fun r1 hq _ => absurd hq hc
    · intro b
      rw [List.cons_append, openLiteralState_cons true c _ hc, hauto b]

theorem takeWhile_all_append (p : Char → Bool) :
    ∀ a z : List Char, (∀ x ∈ a, p x = true) →
      (∀ h, z.head? = some h → p h = false) →
      List.takeWhile p (a ++ z) = a ∧ List.dropWhile p (a ++ z) = z := by
  intro a
  induction a with
  | nil =>
    intro z _ hz
    cases z with
    | nil => exact ⟨rfl, rfl⟩
    | cons h t =>
      constructor
      · rw [List.nil_append, List.takeWhile_cons_of_neg (by simp [hz h rfl])]
      · rw [List.nil_append, List.dropWhile_cons_of_neg (by simp [hz h rfl])]
  | cons c r ih =>
    intro z hall hz
    have hc : p c = true := hall c (List.mem_cons_self c r)
    have hr := ih z (fun x hx => hall x (List.mem_cons_of_mem _ hx)) hz
    constructor
    · rw [List.cons_append, List.takeWhile_cons_of_pos hc, hr.1]
    · rw [List.cons_append, List.dropWhile_cons_of_pos hc, hr.2]

theorem dropWhile_head_not (p : Char → Bool) :
    ∀ l : List Char, ∀ h, (List.dropWhile p l).head? = some h → p h = false := by
  intro l
  induction l with
  | nil => intro h hh; simp at hh
  | cons c r ih =>
    intro h hh
    by_cases hc : p c = true
    · rw [List.dropWhile_cons_of_pos hc] at hh
      exact ih h hh
    · rw [List.dropWhile_cons_of_neg hc] at hh
      have : c = h := by simpa using hh
      subst this
      simpa using hc

theorem mem_takeWhile_sat (p : Char → Bool) :
    ∀ l : List Char, ∀ x ∈ List.takeWhile p l, p x = true := by
  intro l
  induction l with
  | nil => intro x hx; simp at hx
  | cons c r ih =>
    intro x hx
    by_cases hc : p c = true
    · rw [List.takeWhile_cons_of_pos hc] at hx
      rcases List.mem_cons.mp hx with hx | hx
      · subst hx; exact hc
      · exact ih x hx
    · rw [List.takeWhile_cons_of_neg hc] at hx
      simp at hx

theorem digitAt_append (a z : List Char) (i : Nat) (h : digitAt a i = true) :
    digitAt (a ++ z) i = true := by
  unfold digitAt at *
  cases hg : a.get? i with
  | none => rw [hg] at h; simp at h
  | some c =>
    rw [hg] at h
    have hi : i < a.length := by
      by_contra hlt
      rw [List.get?_eq_none.mpr (by omega)] at hg
      exact absurd hg (by simp)
    rw [List.get?_append hi, hg]
    exact h

theorem charAt_append (a z : List Char) (i : Nat) (c : Char) (h : charAt a i c = true) :
    charAt (a ++ z) i c = true := by
  unfold charAt at *
  have hg : a.get? i = some c := by simpa using h
  have hi : i < a.length := by
    by_contra hlt
    rw [List.get?_eq_none.mpr (by omega)] at hg
    exact absurd hg (by simp)
  have hz : (a ++ z).get? i = some c := by rw [List.get?_append hi, hg]
  simpa using hz

/-- A passing datetime regex test still passes after appending input. -/
theorem isDatetimeStart_mono (a z : List Char) (h : isDatetimeStart a = true) :
    isDatetimeStart (a ++ z) = true := by
  unfold isDatetimeStart at h ⊢
  simp only [Bool.and_eq_true] at h ⊢
  obtain ⟨⟨⟨⟨⟨⟨⟨⟨⟨h0, h1⟩, h2⟩, h3⟩, h4⟩, h5⟩, h6⟩, h7⟩, h8⟩, h9⟩ := h
  exact ⟨⟨⟨⟨⟨⟨⟨⟨⟨digitAt_append a z 0 h0, digitAt_append a z 1 h1⟩,
    digitAt_append a z 2 h2⟩, digitAt_append a z 3 h3⟩,
    charAt_append a z 4 '-' h4⟩, digitAt_append a z 5 h5⟩,
    digitAt_append a z 6 h6⟩, charAt_append a z 7 '-' h7⟩,
    digitAt_append a z 8 h8⟩, digitAt_append a z 9 h9⟩

/-- The datetime regex test only inspects the first ten characters. -/
theorem isDatetimeStart_long_append (a z w : List Char) (ha : 10 ≤ a.length) :
    isDatetimeStart (a ++ z) = isDatetimeStart (a ++ w) := by
  have key : ∀ y : List Char, ∀ i, i ≤ 9 → (a ++ y).get? i = a.get? i := by
    intro y i hi
    exact List.get?_append (by omega)
  unfold isDatetimeStart digitAt charAt
  rw [key z 0 (by omega), key z 1 (by omega), key z 2 (by omega), key z 3 (by omega),
    key z 4 (by omega), key z 5 (by omega), key z 6 (by omega), key z 7 (by omega),
    key z 8 (by omega), key z 9 (by omega), key w 0 (by omega), key w 1 (by omega),
    key w 2 (by omega), key w 3 (by omega), key w 4 (by omega), key w 5 (by omega),
    key w 6 (by omega), key w 7 (by omega), key w 8 (by omega), key w 9 (by omega)]

theorem le_length_takeWhile (p : Char → Bool) :
    ∀ (n : Nat) (l : List Char),
      (∀ i < n, ∃ c, l.get? i = some c ∧ p c = true) →
      n ≤ (List.takeWhile p l).length := by
  intro n
  induction n with
  | zero => intro l _; omega
  | succ m ih =>
    intro l h
    obtain ⟨c, hg, hp⟩ := h 0 (by omega)
    cases l with
    | nil => simp at hg
    | cons a r =>
      have hac : a = c := by simpa using hg
      subst hac
      rw [List.takeWhile_cons_of_pos hp]
      have hrec := ih r fun i hi => by
        obtain ⟨d, hgd, hpd⟩ := h (i + 1) (by omega)
        exact ⟨d, by simpa using hgd, hpd⟩
      simpa using Nat.succ_le_succ hrec

theorem digitAt_exists (l : List Char) (i : Nat) (h : digitAt l i = true) :
    ∃ c, l.get? i = some c ∧ isDatetimeChar c = true := by
  unfold digitAt at h
  cases hg : l.get? i with
  | none => rw [hg] at h; simp at h
  | some c =>
    rw [hg] at h
    have hd : c.isDigit = true := by simpa using h
    exact ⟨c, rfl, by simp [isDatetimeChar, hd]⟩

theorem charAt_dash_exists (l : List Char) (i : Nat) (h : charAt l i '-' = true) :
    ∃ c, l.get? i = some c ∧ isDatetimeChar c = true :=
  ⟨'-', by simpa [charAt] using h, by decide⟩

/-- A datetime literal start guarantees at least ten datetime characters. -/
theorem datetime_take_ge (l : List Char) (h : isDatetimeStart l = true) :
    10 ≤ (List.takeWhile isDatetimeChar l).length := by
  unfold isDatetimeStart at h
  simp only [Bool.and_eq_true] at h
  obtain ⟨⟨⟨⟨⟨⟨⟨⟨⟨h0, h1⟩, h2⟩, h3⟩, h4⟩, h5⟩, h6⟩, h7⟩, h8⟩, h9⟩ := h
  apply le_length_takeWhile
  intro i hi
  interval_cases i
  · exact digitAt_exists l 0 h0
  · exact digitAt_exists l 1 h1
  · exact digitAt_exists l 2 h2
  · exact digitAt_exists l 3 h3
  · exact charAt_dash_exists l 4 h4
  · exact digitAt_exists l 5 h5
  · exact digitAt_exists l 6 h6
  · exact charAt_dash_exists l 7 h7
  · exact digitAt_exists l 8 h8
  · exact digitAt_exists l 9 h9

theorem except_cons_map (r : Except String (List Token)) (t : Token) (xs : List Token) :
    (match r.map (fun ts => ts ++ xs) with
     | .ok ts => (.ok (t :: ts) : Except String (List Token))
     | .error e => .error e) =
    (match r with
     | .ok ts => (.ok (t :: ts) : Except String (List Token))
     | .error e => .error e).map (fun ts => ts ++ xs) := by
  cases r with
  | error e => rfl
  | ok ts => simp [Except.map]

/-- The lexer walk on any input ending inside an open string literal: the
input splits at that literal's opening quote; the lexer's result is the
prefix's result with one string token (the `''`-collapsed remainder)
appended — the unterminated literal itself never raises an error. -/
theorem tokenizeGo_open_literal :
    ∀ (n : Nat) (cs : List Char), cs.length ≤ n →
      openLiteralState false cs = true →
      ∃ pre tail : List Char, cs = pre ++ '\'' :: tail ∧
        openLiteralState false pre = false ∧ unclosedScan tail = true ∧
        tokenizeGo cs = (tokenizeGo pre).map
          (fun ts => ts ++ [Token.string (String.mk (collapseQuotes tail))]) := by
  intro n
  induction n with
  | zero =>
    intro cs hlen hopen
    have hnil : cs = [] := List.length_eq_zero.mp (by omega)
    subst hnil
    simp [openLiteralState] at hopen
  | succ n ih =>
    intro cs hlen hopen
    cases cs with
    | nil => simp [openLiteralState] at hopen
    | cons c cs' =>
      simp only [List.length_cons] at hlen
      by_cases hws : jsWhitespace c = true
      · have hcq : c ≠ '\'' := by rintro rfl; simp +decide [jsWhitespace] at hws
        have hopen2 : openLiteralState false cs' = true := by
          rwa [openLiteralState_cons false c cs' hcq] at hopen
        obtain ⟨pre1, tail1, hsp1, hpre1, htail1, heq1⟩ := ih cs' (by omega) hopen2
        refine ⟨c :: pre1, tail1, by rw [List.cons_append, hsp1], ?_, htail1, ?_⟩
        · rwa [openLiteralState_cons false c pre1 hcq]
        · rw [show tokenizeGo (c :: cs') = tokenizeGo cs' from by
              rw [tokenizeGo, if_pos hws],
            show tokenizeGo (c :: pre1) = tokenizeGo pre1 from by
              rw [tokenizeGo, if_pos hws],
            heq1]
      · by_cases hq : c = '\''
        · subst hq
          by_cases hu : unclosedScan cs' = true
          · refine ⟨[], cs', rfl, rfl, hu, ?_⟩
            have hstep : tokenizeGo ('\'' :: cs') =
                match tokenizeGo (scanString cs').2 with
                | .ok ts => .ok (.string (String.mk (scanString cs').1) :: ts)
                | .error e => .error e := by
              rw [tokenizeGo, if_neg hws, if_pos rfl]
            rw [hstep, scanString_unclosed cs' hu]
            dsimp only
            rw [show tokenizeGo ([] : List Char) = .ok [] from by rw [tokenizeGo]]
            rfl
          · have hu' : unclosedScan cs' = false := by simpa using hu
            have hopen2 : openLiteralState true cs' = true := by
              rwa [openLiteralState_quote] at hopen
            obtain ⟨cons, hsp0, hscan, hauto⟩ := scanString_consumed cs' hu'
            have hopen3 : openLiteralState false (scanString cs').2 = true := by
              rw [hsp0] at hopen2
              rwa [hauto ((scanString cs').2)] at hopen2
            obtain ⟨pre1, tail1, hsp1, hpre1, htail1, heq1⟩ :=
              ih (scanString cs').2 (le_trans (scanString_length cs') (by omega)) hopen3
            have hrh := scanString_rest_head cs' hu'
            have hpre1h : pre1.head? ≠ some '\'' := by
              cases pre1 with
              | nil =>
                rw [hsp1] at hrh
                simp at hrh
              | cons p ps =>
                rw [hsp1] at hrh
                simpa using hrh
            refine ⟨'\'' :: (cons ++ pre1), tail1, ?_, ?_, htail1, ?_⟩
            · rw [List.cons_append, List.append_assoc, ← hsp1, ← hsp0]
            · rw [openLiteralState_quote, hauto pre1]
              exact hpre1
            · have hstep1 : tokenizeGo ('\'' :: cs') =
                  match tokenizeGo (scanString cs').2 with
                  | .ok ts => .ok (.string (String.mk (scanString cs').1) :: ts)
                  | .error e => .error e := by
                rw [tokenizeGo, if_neg hws, if_pos rfl]
              have hstep2 : tokenizeGo ('\'' :: (cons ++ pre1)) =
                  match tokenizeGo pre1 with
                  | .ok ts => .ok (.string (String.mk (scanString cs').1) :: ts)
                  | .error e => .error e := by
                rw [tokenizeGo, if_neg hws, if_pos rfl, hscan pre1 hpre1h]
              rw [hstep1, hstep2, heq1]
              exact except_cons_map (tokenizeGo pre1) _ _
        · by_cases hn : isNumStart c = true
          · by_cases hdt : isDatetimeStart (c :: cs') = true
            · have hpc : isDatetimeChar c = true := isDatetimeChar_of_start c cs' hdt
              have hsplit0 :=
                List.takeWhile_append_dropWhile (p := isDatetimeChar) (l := c :: cs')
              have hallp := mem_takeWhile_sat isDatetimeChar (c :: cs')
              have hnoq : ∀ x ∈ List.takeWhile isDatetimeChar (c :: cs'), x ≠ '\'' := by
                intro x hx
                have hx' := hallp x hx
                rintro rfl
                simp +decide [isDatetimeChar] at hx'
              have hopen2 :
                  openLiteralState false (List.dropWhile isDatetimeChar (c :: cs')) = true := by
                rw [← hsplit0] at hopen
                rwa [openLiteralState_noquote_append false _ _ hnoq] at hopen
              have hlenr : (List.dropWhile isDatetimeChar (c :: cs')).length ≤ n := by
                have hlt := dropWhile_cons_length_lt isDatetimeChar c cs' hpc
                simp only [List.length_cons] at hlt
                omega
              obtain ⟨pre1, tail1, hsp1, hpre1, htail1, heq1⟩ := ih _ hlenr hopen2
              have hz : ∀ hh, pre1.head? = some hh → isDatetimeChar hh = false := by
                intro hh hhh
                cases pre1 with
                | nil => simp at hhh
                | cons q qs =>
                  have hdh : (List.dropWhile isDatetimeChar (c :: cs')).head? = some hh := by
                    rw [hsp1]
                    simpa using hhh
                  exact dropWhile_head_not _ _ _ hdh
              have hTD := takeWhile_all_append isDatetimeChar
                (List.takeWhile isDatetimeChar (c :: cs')) pre1 hallp hz
              have h10 : 10 ≤ (List.takeWhile isDatetimeChar (c :: cs')).length :=
                datetime_take_ge _ hdt
              have hdt2 :
                  isDatetimeStart (List.takeWhile isDatetimeChar (c :: cs') ++ pre1) = true := by
                rw [isDatetimeStart_long_append _ pre1
                  (List.dropWhile isDatetimeChar (c :: cs')) h10, hsplit0]
                exact hdt
              have hconsfm : List.takeWhile isDatetimeChar (c :: cs') =
                  c :: List.takeWhile isDatetimeChar cs' := List.takeWhile_cons_of_pos hpc
              refine ⟨List.takeWhile isDatetimeChar (c :: cs') ++ pre1, tail1, ?_, ?_,
                htail1, ?_⟩
              · rw [List.append_assoc, ← hsp1, hsplit0]
              · rw [openLiteralState_noquote_append false _ _ hnoq]
                exact hpre1
              · have hstep1 : tokenizeGo (c :: cs') =
                    match tokenizeGo (List.dropWhile isDatetimeChar (c :: cs')) with
                    | .ok ts => .ok (.datetime
                        (String.mk (List.takeWhile isDatetimeChar (c :: cs'))) :: ts)
                    | .error e => .error e := by
                  rw [tokenizeGo, if_neg hws, if_neg hq, dif_pos hn, dif_pos hdt]
                have hstep2 : tokenizeGo (List.takeWhile isDatetimeChar (c :: cs') ++ pre1) =
                    match tokenizeGo pre1 with
                    | .ok ts => .ok (.datetime
                        (String.mk (List.takeWhile isDatetimeChar (c :: cs'))) :: ts)
                    | .error e => .error e := by
                  rw [hconsfm, List.cons_append] at hdt2 hTD ⊢
                  rw [tokenizeGo, if_neg hws, if_neg hq, dif_pos hn, dif_pos hdt2,
                    hTD.1, hTD.2]
                rw [hstep1, hstep2, heq1]
                exact except_cons_map (tokenizeGo pre1) _ _
            · have hpc : isNumberChar c = true := isNumberChar_of_numStart c hn
              have hcq : c ≠ '\'' := hq
              have hsplit0 :=
                List.takeWhile_append_dropWhile (p := isNumberChar) (l := c :: cs')
              have hallp := mem_takeWhile_sat isNumberChar (c :: cs')
              have hnoq : ∀ x ∈ List.takeWhile isNumberChar (c :: cs'), x ≠ '\'' := by
                intro x hx
                have hx' := hallp x hx
                rintro rfl
                simp +decide [isNumberChar] at hx'
              have hopen2 :
                  openLiteralState false (List.dropWhile isNumberChar (c :: cs')) = true := by
                rw [← hsplit0] at hopen
                rwa [openLiteralState_noquote_append false _ _ hnoq] at hopen
              have hlenr : (List.dropWhile isNumberChar (c :: cs')).length ≤ n := by
                have hlt := dropWhile_cons_length_lt isNumberChar c cs' hpc
                simp only [List.length_cons] at hlt
                omega
              obtain ⟨pre1, tail1, hsp1, hpre1, htail1, heq1⟩ := ih _ hlenr hopen2
              have hz : ∀ hh, pre1.head? = some hh → isNumberChar hh = false := by
                intro hh hhh
                cases pre1 with
                | nil => simp at hhh
                | cons q qs =>
                  have hdh : (List.dropWhile isNumberChar (c :: cs')).head? = some hh := by
                    rw [hsp1]
                    simpa using hhh
                  exact dropWhile_head_not _ _ _ hdh
              have hTD := takeWhile_all_append isNumberChar
                (List.takeWhile isNumberChar (c :: cs')) pre1 hallp hz
              have hdt2 :
                  ¬ isDatetimeStart (List.takeWhile isNumberChar (c :: cs') ++ pre1) = true := by
                intro hcontra
                have hmono := isDatetimeStart_mono _ ('\'' :: tail1) hcontra
                rw [List.append_assoc, ← hsp1, hsplit0] at hmono
                exact hdt hmono
              have hconsfm : List.takeWhile isNumberChar (c :: cs') =
                  c :: List.takeWhile isNumberChar cs' := List.takeWhile_cons_of_pos hpc
              refine ⟨List.takeWhile isNumberChar (c :: cs') ++ pre1, tail1, ?_, ?_,
                htail1, ?_⟩
              · rw [List.append_assoc, ← hsp1, hsplit0]
              · rw [openLiteralState_noquote_append false _ _ hnoq]
                exact hpre1
              · have hstep1 : tokenizeGo (c :: cs') =
                    match tokenizeGo (List.dropWhile isNumberChar (c :: cs')) with
                    | .ok ts => .ok (.number
                        (String.mk (List.takeWhile isNumberChar (c :: cs'))) :: ts)
                    | .error e => .error e := by
                  rw [tokenizeGo, if_neg hws, if_neg hq, dif_pos hn, dif_neg hdt]
                have hstep2 : tokenizeGo (List.takeWhile isNumberChar (c :: cs') ++ pre1) =
                    match tokenizeGo pre1 with
                    | .ok ts => .ok (.number
                        (String.mk (List.takeWhile isNumberChar (c :: cs'))) :: ts)
                    | .error e => .error e := by
                  rw [hconsfm, List.cons_append] at hdt2 hTD ⊢
                  rw [tokenizeGo, if_neg hws, if_neg hq, dif_pos hn, dif_neg hdt2,
                    hTD.1, hTD.2]
                rw [hstep1, hstep2, heq1]
                exact except_cons_map (tokenizeGo pre1) _ _
          · by_cases hpar : c = '(' ∨ c = ')'
            · have hcq : c ≠ '\'' := hq
              have hopen2 : openLiteralState false cs' = true := by
                rwa [openLiteralState_cons false c cs' hcq] at hopen
              obtain ⟨pre1, tail1, hsp1, hpre1, htail1, heq1⟩ := ih cs' (by omega) hopen2
              refine ⟨c :: pre1, tail1, by rw [List.cons_append, hsp1], ?_, htail1, ?_⟩
              · rwa [openLiteralState_cons false c pre1 hcq]
              · have hstep1 : tokenizeGo (c :: cs') =
                    match tokenizeGo cs' with
                    | .ok ts => .ok (.paren (String.mk [c]) :: ts)
                    | .error e => .error e := by
                  rw [tokenizeGo, if_neg hws, if_neg hq, dif_neg hn, if_pos hpar]
                have hstep2 : tokenizeGo (c :: pre1) =
                    match tokenizeGo pre1 with
                    | .ok ts => .ok (.paren (String.mk [c]) :: ts)
                    | .error e => .error e := by
                  rw [tokenizeGo, if_neg hws, if_neg hq, dif_neg hn, if_pos hpar]
                rw [hstep1, hstep2, heq1]
                exact except_cons_map (tokenizeGo pre1) _ _
            · by_cases hcm : c = ','
              · have hcq : c ≠ '\'' := hq
                have hopen2 : openLiteralState false cs' = true := by
                  rwa [openLiteralState_cons false c cs' hcq] at hopen
                obtain ⟨pre1, tail1, hsp1, hpre1, htail1, heq1⟩ := ih cs' (by omega) hopen2
                refine ⟨c :: pre1, tail1, by rw [List.cons_append, hsp1], ?_, htail1, ?_⟩
                · rwa [openLiteralState_cons false c pre1 hcq]
                · have hstep1 : tokenizeGo (c :: cs') =
                      match tokenizeGo cs' with
                      | .ok ts => .ok (.comma :: ts)
                      | .error e => .error e := by
                    rw [tokenizeGo, if_neg hws, if_neg hq, dif_neg hn, if_neg hpar,
                      if_pos hcm]
                  have hstep2 : tokenizeGo (c :: pre1) =
                      match tokenizeGo pre1 with
                      | .ok ts => .ok (.comma :: ts)
                      | .error e => .error e := by
                    rw [tokenizeGo, if_neg hws, if_neg hq, dif_neg hn, if_neg hpar,
                      if_pos hcm]
                  rw [hstep1, hstep2, heq1]
                  exact except_cons_map (tokenizeGo pre1) _ _
              · by_cases hw : isWordStart c = true
                · have hpc : isWordChar c = true := isWordChar_of_wordStart c hw
                  have hcq : c ≠ '\'' := hq
                  have hsplit0 :=
                    List.takeWhile_append_dropWhile (p := isWordChar) (l := c :: cs')
                  have hallp := mem_takeWhile_sat isWordChar (c :: cs')
                  have hnoq : ∀ x ∈ List.takeWhile isWordChar (c :: cs'), x ≠ '\'' := by
                    intro x hx
                    have hx' := hallp x hx
                    rintro rfl
                    simp +decide [isWordChar] at hx'
                  have hopen2 :
                      openLiteralState false (List.dropWhile isWordChar (c :: cs')) = true := by
                    rw [← hsplit0] at hopen
                    rwa [openLiteralState_noquote_append false _ _ hnoq] at hopen
                  have hlenr : (List.dropWhile isWordChar (c :: cs')).length ≤ n := by
                    have hlt := dropWhile_cons_length_lt isWordChar c cs' hpc
                    simp only [List.length_cons] at hlt
                    omega
                  obtain ⟨pre1, tail1, hsp1, hpre1, htail1, heq1⟩ := ih _ hlenr hopen2
                  have hz : ∀ hh, pre1.head? = some hh → isWordChar hh = false := by
                    intro hh hhh
                    cases pre1 with
                    | nil => simp at hhh
                    | cons q qs =>
                      have hdh : (List.dropWhile isWordChar (c :: cs')).head? = some hh := by
                        rw [hsp1]
                        simpa using hhh
                      exact dropWhile_head_not _ _ _ hdh
                  have hTD := takeWhile_all_append isWordChar
                    (List.takeWhile isWordChar (c :: cs')) pre1 hallp hz
                  have hconsfm : List.takeWhile isWordChar (c :: cs') =
                      c :: List.takeWhile isWordChar cs' := List.takeWhile_cons_of_pos hpc
                  refine ⟨List.takeWhile isWordChar (c :: cs') ++ pre1, tail1, ?_, ?_,
                    htail1, ?_⟩
                  · rw [List.append_assoc, ← hsp1, hsplit0]
                  · rw [openLiteralState_noquote_append false _ _ hnoq]
                    exact hpre1
                  · have hstep1 : tokenizeGo (c :: cs') =
                        match tokenizeGo (List.dropWhile isWordChar (c :: cs')) with
                        | .ok ts => .ok (classifyWord
                            (String.mk (List.takeWhile isWordChar (c :: cs'))) :: ts)
                        | .error e => .error e := by
                      rw [tokenizeGo, if_neg hws, if_neg hq, dif_neg hn, if_neg hpar,
                        if_neg hcm, dif_pos hw]
                    have hstep2 : tokenizeGo (List.takeWhile isWordChar (c :: cs') ++ pre1) =
                        match tokenizeGo pre1 with
                        | .ok ts => .ok (classifyWord
                            (String.mk (List.takeWhile isWordChar (c :: cs'))) :: ts)
                        | .error e => .error e := by
                      rw [hconsfm, List.cons_append] at hTD ⊢
                      rw [tokenizeGo, if_neg hws, if_neg hq, dif_neg hn, if_neg hpar,
                        if_neg hcm, dif_pos hw, hTD.1, hTD.2]
                    rw [hstep1, hstep2, heq1]
                    exact except_cons_map (tokenizeGo pre1) _ _
                · have hcq : c ≠ '\'' := hq
                  have hopen2 : openLiteralState false cs' = true := by
                    rwa [openLiteralState_cons false c cs' hcq] at hopen
                  obtain ⟨pre1, tail1, hsp1, hpre1, htail1, heq1⟩ :=
                    ih cs' (by omega) hopen2
                  refine ⟨c :: pre1, tail1, by rw [List.cons_append, hsp1], ?_, htail1, ?_⟩
                  · rwa [openLiteralState_cons false c pre1 hcq]
                  · rw [show tokenizeGo (c :: cs') =
                          .error ("Unexpected character in filter: " ++ String.mk [c]) from by
                        rw [tokenizeGo, if_neg hws, if_neg hq, dif_neg hn, if_neg hpar,
                          if_neg hcm, dif_neg hw],
                      show tokenizeGo (c :: pre1) =
                          .error ("Unexpected character in filter: " ++ String.mk [c]) from by
                        rw [tokenizeGo, if_neg hws, if_neg hq, dif_neg hn, if_neg hpar,
                          if_neg hcm, dif_neg hw]]
                    rfl

/-- C8 (amended): for every `$filter` input containing a string literal
whose closing quote is missing — equivalently, the lexer's quote-state
automaton ends inside an open literal — the lexer does NOT fail with a
parse error on it: the input splits at the unterminated literal's opening
quote into a prefix whose literals all close and an unclosed remainder,
and the lexer returns exactly the prefix's tokens followed by one string
token holding the remainder with every escaped `''` collapsed to a single
quote.  An error can only arise from an illegal character in the prefix,
never from the missing closing quote. -/
theorem tokenizeFilter_unclosed_accepts (s : String)
    (h : openLiteralState false s.data = true) :
    ∃ pre tail : List Char, s.data = pre ++ '\'' :: tail ∧
      openLiteralState false pre = false ∧ unclosedScan tail = true ∧
      tokenizeFilter s = (tokenizeGo pre).map
        (fun ts => ts ++ [Token.string (String.mk (collapseQuotes tail))]) :=
  tokenizeGo_open_literal s.data.length s.data le_rfl h

/-- Witness for C8 (amended): the filter `City eq 'it''s LA` — an
unterminated literal containing an escaped quote after a well-formed
prefix — splits as claimed, and concretely lexes to the prefix's tokens
plus the string token `it's LA`. -/
theorem tokenizeFilter_unclosed_accepts_witness :
    openLiteralState false ("City eq 'it''s LA").data = true ∧
    (∃ pre tail : List Char, ("City eq 'it''s LA").data = pre ++ '\'' :: tail ∧
      openLiteralState false pre = false ∧ unclosedScan tail = true ∧
      tokenizeFilter "City eq 'it''s LA" = (tokenizeGo pre).map
        (fun ts => ts ++ [Token.string (String.mk (collapseQuotes tail))])) ∧
    tokenizeFilter "City eq 'it''s LA" =
      .ok [.identifier "City", .operator "eq", .string "it's LA"] :=
  ⟨by decide, tokenizeFilter_unclosed_accepts "City eq 'it''s LA" (by decide),
   by simp +decide [tokenizeFilter, tokenizeGo, scanString, classifyWord, jsToLower]⟩

/-- C10: when either OAuth client id or secret is unset (or empty), the
middleware passes every request to the protected routes untouched: the
outcome is `next` for every Authorization header, no 401 is produced, and
the token store is never consulted. -/
theorem authMiddleware_skips_when_unconfigured (cfg : AuthConfig)
    (hdr : Option String) (store : String → Option TokenData) (now : Int)
    (h : jsTruthyStr cfg.clientId = false ∨ jsTruthyStr cfg.clientSecret = false) :
    authMiddleware cfg hdr store now =
      { result := .next none, lookups := [], deletions := [] } := by
  unfold authMiddleware
  rcases h with h | h <;> simp [h]

/-- Witness for C10: no client id configured, a well-formed bearer header
present, yet the request passes through with no store lookup. -/
theorem authMiddleware_skips_witness :
    (jsTruthyStr (AuthConfig.mk none (some "secret")).clientId = false ∨
      jsTruthyStr (AuthConfig.mk none (some "secret")).clientSecret = false) ∧
    authMiddleware (AuthConfig.mk none (some "secret")) (some "Bearer sometoken")
        (fun t => some ⟨"client", 0⟩) 99 =
      { result := .next none, lookups := [], deletions := [] } :=
  ⟨Or.inl rfl,
    authMiddleware_skips_when_unconfigured (AuthConfig.mk none (some "secret"))
      (some "Bearer sometoken") (fun t => some ⟨"client", 0⟩) 99 (Or.inl rfl)⟩

/-- Destructuring of a successful `buildQuery`: the plan is assembled from
the clause parsers' outputs, one shared WHERE clause, and the pagination
values. -/
theorem buildQuery_ok_parts (o : BuildOptions) (plan : QueryPlan)
    (h : buildQuery o = .ok plan) :
    ∃ sf wp ob,
      parseSelect o.query.select o.fieldMap = .ok sf ∧
      wherePartsOf o = .ok wp ∧
      parseOrderBy o.query.orderby o.fieldMap = .ok ob ∧
      plan = { dataQuery := mkDataQuery sf o.table (whereClauseOf wp.1)
                 (orderClauseOf ob o.fieldMap) (skipOf o.query) (topOf o.query),
               countQuery :=
                 if o.query.count = some "true" then
                   some (mkCountQuery o.table (whereClauseOf wp.1))
                 else none,
               params := wp.2,
               top := topOf o.query,
               skip := skipOf o.query,
               nextLinkBuilder := nextLinkBuilderOf o } := by
  unfold buildQuery at h
  cases hsf : parseSelect o.query.select o.fieldMap with
  | error e =>
    rw [hsf] at h
    simp [Bind.bind, Except.bind] at h
  | ok sf =>
    rw [hsf] at h
    cases hwp : wherePartsOf o with
    | error e =>
      rw [hwp] at h
      simp [Bind.bind, Except.bind] at h
    | ok wp =>
      rw [hwp] at h
      cases hob : parseOrderBy o.query.orderby o.fieldMap with
      | error e =>
        rw [hob] at h
        simp [Bind.bind, Except.bind] at h
      | ok ob =>
        rw [hob] at h
        simp only [Bind.bind, Except.bind, pure, Except.pure, Except.ok.injEq] at h
        exact ⟨sf, wp, ob, rfl, rfl, rfl, h.symm⟩

/-- C4: for every raw query option map the computed pagination satisfies
`top = clamp(parseInt($top) || 100, 1, 1000)` and
`skip = max(parseInt($skip) || 0, 0)`, so `top ∈ [1, 1000]` (default 100)
and `skip ≥ 0` (default 0). -/
theorem buildQuery_pagination (o : BuildOptions) (plan : QueryPlan)
    (h : buildQuery o = .ok plan) :
    plan.top = min (max (jsOrDefault (jsParseInt o.query.top) 100) 1) 1000 ∧
    plan.skip = max (jsOrDefault (jsParseInt o.query.skip) 0) 0 ∧
    1 ≤ plan.top ∧ plan.top ≤ 1000 ∧ 0 ≤ plan.skip ∧
    (o.query.top = none → plan.top = 100) ∧
    (o.query.skip = none → plan.skip = 0) := by
  obtain ⟨sf, wp, ob, _, _, _, hplan⟩ := buildQuery_ok_parts o plan h
  subst hplan
  refine ⟨rfl, rfl, ?_, ?_, ?_, ?_, ?_⟩
  · show 1 ≤ topOf o.query
    unfold topOf
    omega
  · show topOf o.query ≤ 1000
    unfold topOf
    omega
  · show 0 ≤ skipOf o.query
    unfold skipOf
    omega
  · intro htop
    show topOf o.query = 100
    unfold topOf
    rw [htop]
    rfl
  · intro hskip
    show skipOf o.query = 0
    unfold skipOf
    rw [hskip]
    rfl

/-- Options and plan used by the C4 witness. -/
def c4wOptions : BuildOptions :=
  { table := "T", fieldMap := [("A", "COLA"), ("B", "COLB")],
    query := { top := some "05000", skip := some "-3" }, keyField := "A" }

/-- Plan computed by `buildQuery` on the C4 witness options. -/
def c4wPlan : QueryPlan := (buildQuery c4wOptions).toOption.getD default

/-- Witness for C4: `$top=05000` parses as 5000 (leading zero kept,
decimal) and clamps to 1000; `$skip=-3` clamps to 0. -/
theorem buildQuery_pagination_witness :
    buildQuery c4wOptions = .ok c4wPlan ∧
    (c4wPlan.top =
        min (max (jsOrDefault (jsParseInt c4wOptions.query.top) 100) 1) 1000 ∧
      c4wPlan.skip = max (jsOrDefault (jsParseInt c4wOptions.query.skip) 0) 0 ∧
      1 ≤ c4wPlan.top ∧ c4wPlan.top ≤ 1000 ∧ 0 ≤ c4wPlan.skip ∧
      (c4wOptions.query.top = none → c4wPlan.top = 100) ∧
      (c4wOptions.query.skip = none → c4wPlan.skip = 0)) ∧
    c4wPlan.top = 1000 ∧ c4wPlan.skip = 0 :=
  ⟨rfl, buildQuery_pagination c4wOptions c4wPlan rfl, rfl, rfl⟩

/-- Substring occurrence established at the character level. -/
theorem strIncludes_of_data (hay sub : String) (pre suf : List Char)
    (h : hay.data = pre ++ (sub.data ++ suf)) : strIncludes hay sub = true := by
  unfold strIncludes
  rw [h]
  exact hasSubList_append_left sub.data pre (sub.data ++ suf)
    (hasSubList_of_prefixMatch sub.data (sub.data ++ suf)
      (prefixMatch_self_append sub.data suf))

/-- Every data query built with an `ORDER BY`-prefixed order clause
contains the text `ORDER BY `. -/
theorem mkDataQuery_includes_orderBy (sf t wc x : String) (skip top : Int) :
    strIncludes (mkDataQuery sf t wc ("ORDER BY " ++ x) skip top) "ORDER BY " = true := by
  apply strIncludes_of_data _ _
    (("\n    SELECT ").data ++ sf.data ++ ("\n    FROM ").data ++ t.data ++
      ("\n    ").data ++ wc.data ++ ("\n    ").data)
    (x.data ++ ("\n    OFFSET ").data ++ (jsIntToString skip).data ++
      (" ROWS\n    FETCH NEXT ").data ++ (jsIntToString top).data ++
      (" ROWS ONLY\n  ").data)
  simp [mkDataQuery, String.data_append]

/-- The order clause always starts with `ORDER BY `. -/
theorem orderClauseOf_shape (orderBy : String) (fm : List (String × String)) :
    orderClauseOf orderBy fm =
      "ORDER BY " ++ (if orderBy ≠ "" then orderBy else headColumn fm) := by
  unfold orderClauseOf
  split <;> rfl

/-- Characterization of one accepted `$orderby` entry: the named field is
whitelisted and the emitted text is its backend column followed by `ASC`,
or `DESC` exactly when the client wrote `desc` (case-insensitively). -/
theorem orderEntry_ok (fm : List (String × String)) (part e : String)
    (h : orderEntry fm part = .ok e) :
    ∃ col, fm.lookup ((jsSplitWhitespaceRuns (jsTrim part)).headD "") = some col ∧
      e = col ++ " " ++
        (if ((jsSplitWhitespaceRuns (jsTrim part)).get? 1).map jsToLower = some "desc"
         then "DESC" else "ASC") := by
  unfold orderEntry at h
  split at h
  · rename_i hsome
    obtain ⟨col, hcol⟩ := Option.isSome_iff_exists.mp hsome
    refine ⟨col, hcol, ?_⟩
    injection h with h'
    rw [← h']
    unfold jsLookupStr
    rw [hcol]
    rfl
  · exact absurd h (by simp)

/-- Characterization of the `$orderby` mapping loop: every emitted entry
comes from one comma-split part via `orderEntry`, and there are as many
entries as parts. -/
theorem orderPartsGo_entries (fm : List (String × String)) :
    ∀ parts entries, orderPartsGo fm parts = .ok entries →
      entries.length = parts.length ∧
      ∀ e ∈ entries, ∃ part ∈ parts, orderEntry fm part = .ok e := by
  intro parts
  induction parts with
  | nil =>
    intro entries h
    unfold orderPartsGo at h
    injection h with h'
    subst h'
    exact ⟨rfl, by simp⟩
  | cons p ps ih =>
    intro entries h
    unfold orderPartsGo at h
    cases he : orderEntry fm p with
    | error err =>
      rw [he] at h
      exact absurd h (by simp)
    | ok e =>
      rw [he] at h
      cases hr : orderPartsGo fm ps with
      | error err =>
        rw [hr] at h
        exact absurd h (by simp)
      | ok rest =>
        rw [hr] at h
        injection h with h'
        subst h'
        obtain ⟨hlen, hmem⟩ := ih rest hr
        refine ⟨by simp [hlen], ?_⟩
        intro x hx
        rcases List.mem_cons.mp hx with hx | hx
        · exact ⟨p, List.mem_cons_self p ps, hx ▸ he⟩
        · obtain ⟨part, hp, hpe⟩ := hmem x hx
          exact ⟨part, List.mem_cons_of_mem p hp, hpe⟩

/-- The split loop never yields an empty group list. -/
theorem splitCharsOn_ne_nil (sep : Char) : ∀ l, splitCharsOn sep l ≠ [] := by
  intro l
  cases l with
  | nil => simp [splitCharsOn]
  | cons c cs =>
    rw [splitCharsOn]
    cases hrec : splitCharsOn sep cs with
    | nil => simp
    | cons g gs => by_cases hc : c = sep <;> simp [hc]

/-- `String.prototype.split` never yields an empty array. -/
theorem jsSplit_ne_nil (sep : Char) (s : String) : jsSplit sep s ≠ [] := by
  unfold jsSplit
  intro h
  rw [List.map_eq_nil_iff] at h
  exact splitCharsOn_ne_nil sep s.data h

/-- `joinSep` of a non-empty list starts with its head. -/
theorem joinSep_head (sep : String) (x : String) (rest : List String) :
    ∃ t : String, joinSep sep (x :: rest) = x ++ t := by
  cases rest with
  | nil => exact ⟨"", by rw [joinSep]; simp⟩
  | cons y ys => exact ⟨sep ++ joinSep sep (y :: ys), by rw [joinSep]; simp [String.append_assoc]⟩

/-- A string is empty exactly when its character list is. -/
theorem str_eq_empty_iff (a : String) : a = "" ↔ a.data = [] := by
  constructor
  · intro h
    rw [h]
  · intro h
    cases a with
    | mk d =>
      simp only at h
      rw [h]

/-- Appending to a non-empty string stays non-empty. -/
theorem append_ne_empty_left (a b : String) (ha : a ≠ "") : a ++ b ≠ "" := by
  intro h
  apply ha
  rw [str_eq_empty_iff] at h ⊢
  rw [String.data_append] at h
  exact (List.append_eq_nil.mp h).1

/-- An `$orderby` entry `col ++ " " ++ dir` is never empty. -/
theorem orderEntry_text_ne_empty (col dir : String) : col ++ " " ++ dir ≠ "" := by
  intro h
  rw [str_eq_empty_iff, String.data_append, String.data_append] at h
  have := congrArg List.length h
  simp at this

/-- C5: every data SQL statement contains an `ORDER BY` clause; with no
client `$orderby` the builder orders by the field map's first column, and
with a client `$orderby` each comma-split entry is mapped to its
whitelisted backend column with direction `ASC` by default or `DESC` when
`desc` is given. -/
theorem buildQuery_order_stable (o : BuildOptions) (plan : QueryPlan)
    (h : buildQuery o = .ok plan) :
    strIncludes plan.dataQuery "ORDER BY " = true ∧
    (jsTruthyStr o.query.orderby = false →
      ∃ sf wc, plan.dataQuery =
        mkDataQuery sf o.table wc ("ORDER BY " ++ headColumn o.fieldMap)
          plan.skip plan.top) ∧
    (∀ s, o.query.orderby = some s → s ≠ "" →
      ∃ entries sf wc,
        orderPartsGo o.fieldMap (jsSplit ',' s) = .ok entries ∧
        plan.dataQuery = mkDataQuery sf o.table wc
          ("ORDER BY " ++ joinSep ", " entries) plan.skip plan.top ∧
        entries.length = (jsSplit ',' s).length ∧
        ∀ e ∈ entries, ∃ part col,
          part ∈ jsSplit ',' s ∧
          o.fieldMap.lookup ((jsSplitWhitespaceRuns (jsTrim part)).headD "") = some col ∧
          e = col ++ " " ++
            (if ((jsSplitWhitespaceRuns (jsTrim part)).get? 1).map jsToLower = some "desc"
             then "DESC" else "ASC")) := by
  obtain ⟨sf, wp, ob, hsf, hwp, hob, hplan⟩ := buildQuery_ok_parts o plan h
  subst hplan
  refine ⟨?_, ?_, ?_⟩
  · show strIncludes (mkDataQuery sf o.table (whereClauseOf wp.1)
      (orderClauseOf ob o.fieldMap) (skipOf o.query) (topOf o.query)) "ORDER BY " = true
    rw [orderClauseOf_shape]
    exact mkDataQuery_includes_orderBy _ _ _ _ _ _
  · intro hfalse
    have hob' : ob = "" := by
      unfold parseOrderBy at hob
      rw [hfalse] at hob
      simp at hob
      exact hob.symm
    subst hob'
    refine ⟨sf, whereClauseOf wp.1, ?_⟩
    show mkDataQuery sf o.table (whereClauseOf wp.1) (orderClauseOf "" o.fieldMap) _ _ = _
    rw [orderClauseOf_shape]
    rfl
  · intro s hs hne
    have htruthy : jsTruthyStr o.query.orderby = true := by
      rw [hs]
      simpa [jsTruthyStr] using hne
    unfold parseOrderBy at hob
    rw [htruthy, hs] at hob
    simp only [eq_self_iff_true, if_true, Option.getD_some] at hob
    cases hparts : orderPartsGo o.fieldMap (jsSplit ',' s) with
    | error err =>
      rw [hparts] at hob
      exact absurd hob (by simp)
    | ok entries =>
      rw [hparts] at hob
      injection hob with hob'
      obtain ⟨hlen, hmem⟩ := orderPartsGo_entries o.fieldMap (jsSplit ',' s) entries hparts
      have hobne : ob ≠ "" := by
        rw [← hob']
        rcases hen : entries with _ | ⟨e, rest⟩
        · exfalso
          rw [hen] at hlen
          simp only [List.length_nil] at hlen
          have hpos := List.length_pos_of_ne_nil (jsSplit_ne_nil ',' s)
          omega
        · obtain ⟨part, hp, hpe⟩ := hmem e (hen ▸ List.mem_cons_self e rest)
          obtain ⟨col, _, hetext⟩ := orderEntry_ok o.fieldMap part e hpe
          obtain ⟨t, ht⟩ := joinSep_head ", " e rest
          rw [ht]
          exact append_ne_empty_left e t (hetext ▸ orderEntry_text_ne_empty col _)
      refine ⟨entries, sf, whereClauseOf wp.1, rfl, ?_, hlen, ?_⟩
      · show mkDataQuery sf o.table (whereClauseOf wp.1) (orderClauseOf ob o.fieldMap) _ _ = _
        rw [orderClauseOf_shape, if_pos hobne, hob']
      · intro e he
        obtain ⟨part, hp, hpe⟩ := hmem e he
        obtain ⟨col, hcol, hetext⟩ := orderEntry_ok o.fieldMap part e hpe
        exact ⟨part, col, hp, hcol, hetext⟩

/-- Options used by the C5 witness: a descending client `$orderby`. -/
def c5wOptions : BuildOptions :=
  { table := "T", fieldMap := [("A", "COLA"), ("B", "COLB")],
    query := { orderby := some "B desc" }, keyField := "A" }

/-- Plan computed by `buildQuery` on the C5 witness options. -/
def c5wPlan : QueryPlan := (buildQuery c5wOptions).toOption.getD default

/-- Witness for C5: the built data query contains an `ORDER BY`. -/
theorem buildQuery_order_stable_witness :
    buildQuery c5wOptions = .ok c5wPlan ∧
    strIncludes c5wPlan.dataQuery "ORDER BY " = true :=
  ⟨rfl, (buildQuery_order_stable c5wOptions c5wPlan rfl).1⟩

/-- C6: with `$count=true` the plan's count SQL is
`SELECT COUNT(*) … FROM <table> <WHERE?>` built from exactly the same
WHERE clause text as the data SQL, both statements are executed with the
plan's single parameter map, and with any other `$count` the count query
is `null`. -/
theorem buildQuery_count_same_where (o : BuildOptions) (plan : QueryPlan)
    (h : buildQuery o = .ok plan) :
    (o.query.count ≠ some "true" → plan.countQuery = none) ∧
    (o.query.count = some "true" →
      ∃ sf wc obc, plan.dataQuery = mkDataQuery sf o.table wc obc plan.skip plan.top ∧
        plan.countQuery = some (mkCountQuery o.table wc)) ∧
    (∀ qp ∈ issuedQueries plan, qp.2 = plan.params) := by
  obtain ⟨sf, wp, ob, hsf, hwp, hob, hplan⟩ := buildQuery_ok_parts o plan h
  subst hplan
  refine ⟨?_, ?_, ?_⟩
  · intro hne
    show (if o.query.count = some "true" then _ else none) = none
    rw [if_neg hne]
  · intro heq
    refine ⟨sf, whereClauseOf wp.1, orderClauseOf ob o.fieldMap, rfl, ?_⟩
    show (if o.query.count = some "true" then
      some (mkCountQuery o.table (whereClauseOf wp.1)) else none) = _
    rw [if_pos heq]
  · intro qp hqp
    unfold issuedQueries at hqp
    rcases List.mem_cons.mp hqp with hqp | hqp
    · rw [hqp]
    · rcases hc : (QueryPlan.countQuery _) with _ | c
      · rw [hc] at hqp
        simp at hqp
      · rw [hc] at hqp
        simp at hqp
        rw [hqp]

/-- Options used by the C6 witness: `$count=true` with a `$filter`. -/
def c6wOptions : BuildOptions :=
  { table := "T", fieldMap := [("A", "COLA"), ("B", "COLB")],
    query := { count := some "true" }, keyField := "A",
    keyValue := some (.str "k1") }

/-- Plan computed by `buildQuery` on the C6 witness options. -/
def c6wPlan : QueryPlan := (buildQuery c6wOptions).toOption.getD default

/-- Witness for C6: the count query exists and shares the WHERE text. -/
theorem buildQuery_count_same_where_witness :
    buildQuery c6wOptions = .ok c6wPlan ∧
    c6wOptions.query.count = some "true" ∧
    (∃ sf wc obc, c6wPlan.dataQuery = mkDataQuery sf c6wOptions.table wc obc
        c6wPlan.skip c6wPlan.top ∧
      c6wPlan.countQuery = some (mkCountQuery c6wOptions.table wc)) :=
  ⟨rfl, rfl, (buildQuery_count_same_where c6wOptions c6wPlan rfl).2.1 rfl⟩

/-- The serialization of every pair after the first, each preceded by `&`. -/
def serializeTail : List (String × String) → String
  | [] => ""
  | p :: rest => "&" ++ formPair p ++ serializeTail rest

theorem formSerialize_cons_eq_tail :
    ∀ (ps : List (String × String)) (p : String × String),
      formSerialize (p :: ps) = formPair p ++ serializeTail ps := by
  intro ps
  induction ps with
  | nil =>
    intro p
    rw [formSerialize, serializeTail]
    simp
  | cons q rest ih =>
    intro p
    rw [formSerialize, serializeTail, ih q]
    simp [String.append_assoc]

/-- Form-encoding a string of decimal digits is the identity. -/
theorem formEncode_all_digits (s : String) (h : ∀ c ∈ s.data, c.isDigit = true) :
    formEncode s = s := by
  unfold formEncode
  suffices h' : ∀ l : List Char, (∀ c ∈ l, c.isDigit = true) →
      concatMapChars formEncodeChar l = String.mk l by
    exact h' s.data h
  intro l
  induction l with
  | nil => intro _; rfl
  | cons c cs ih =>
    intro hl
    have hc := hl c (List.mem_cons_self c cs)
    have hns : ¬ c = ' ' := by
      intro e
      rw [e] at hc
      exact absurd hc (by decide)
    have hur : formUnreserved c = true := by
      unfold formUnreserved
      simp [hc]
    rw [concatMapChars, formEncodeChar, if_neg hns, if_pos hur,
      ih fun x hx => hl x (List.mem_cons_of_mem c hx)]
    rfl

/-- Digit-only rendering of a non-negative JS integer. -/
theorem jsIntToString_digits (n : Int) (h : 0 ≤ n) :
    ∀ c ∈ (jsIntToString n).data, c.isDigit = true := by
  unfold jsIntToString
  rw [if_neg (not_lt.mpr h)]
  exact natToDecimal_digits n.natAbs

/-- A string occurs in any right part of a concatenation. -/
theorem strIncludes_append_right (a b sub : String)
    (h : strIncludes b sub = true) : strIncludes (a ++ b) sub = true := by
  unfold strIncludes at *
  rw [String.data_append]
  exact hasSubList_append_left sub.data a.data b.data h

theorem serializeTail_head_includes (name val : String)
    (rest : List (String × String)) :
    strIncludes (serializeTail ((name, val) :: rest)) (formEncode name ++ "=") = true := by
  apply strIncludes_of_data _ _ ("&").data
    ((formEncode val).data ++ (serializeTail rest).data)
  simp [serializeTail, formPair, String.data_append]

/-- Every pair of the tail serialization surfaces as `<encoded name>=` in
the serialized text. -/
theorem serializeTail_includes (name val : String) :
    ∀ ps : List (String × String), (name, val) ∈ ps →
      strIncludes (serializeTail ps) (formEncode name ++ "=") = true := by
  intro ps
  induction ps with
  | nil => intro h; simp at h
  | cons q rest ih =>
    intro h
    rcases List.mem_cons.mp h with h | h
    · rw [← h]
      exact serializeTail_head_includes name val rest
    · show strIncludes ("&" ++ formPair q ++ serializeTail rest) _ = true
      rw [String.append_assoc]
      exact strIncludes_append_right _ _ _
        (strIncludes_append_right _ _ _ (ih h))

/-- C7: for every plan built with a truthy `baseUrl`, the next-link
closure yields `null` exactly when `skip + top ≥ total`, and otherwise the
URL `<baseUrl>?$top=<top>&$skip=<skip+top>` (parameter names form-encoded,
so `$` appears as `%24`) followed by the serialization of any of
`$select`, `$filter`, `$orderby`, `$count` the client supplied. -/
theorem buildQuery_next_link (o : BuildOptions) (plan : QueryPlan) (u : String)
    (hu : o.baseUrl = some u) (hune : u ≠ "") (h : buildQuery o = .ok plan) :
    ∃ f, plan.nextLinkBuilder = some f ∧
      (∀ total : Int,
        (f total = none ↔ total ≤ plan.skip + plan.top) ∧
        (plan.skip + plan.top < total →
          f total = some (u ++ "?%24top=" ++ jsIntToString plan.top ++ "&%24skip=" ++
            jsIntToString (plan.skip + plan.top) ++
            serializeTail (optPairsOf o.query)))) ∧
      (jsTruthyStr o.query.select = true →
        strIncludes (serializeTail (optPairsOf o.query)) "%24select=" = true) ∧
      (jsTruthyStr o.query.filter = true →
        strIncludes (serializeTail (optPairsOf o.query)) "%24filter=" = true) ∧
      (jsTruthyStr o.query.orderby = true →
        strIncludes (serializeTail (optPairsOf o.query)) "%24orderby=" = true) ∧
      (jsTruthyStr o.query.count = true →
        strIncludes (serializeTail (optPairsOf o.query)) "%24count=" = true) := by
  obtain ⟨sf, wp, ob, hsf, hwp, hob, hplan⟩ := buildQuery_ok_parts o plan h
  subst hplan
  dsimp only
  have htop1 : 1 ≤ topOf o.query := by
    unfold topOf
    omega
  have hskip0 : 0 ≤ skipOf o.query := by
    unfold skipOf
    omega
  refine ⟨nextLinkFn u (topOf o.query) (skipOf o.query) o.query, ?_, ?_, ?_, ?_, ?_, ?_⟩
  · show nextLinkBuilderOf o = _
    unfold nextLinkBuilderOf
    rw [hu]
    have : jsTruthyStr (some u) = true := by
      simp [jsTruthyStr, hune]
    rw [if_pos this]
    rfl
  · intro total
    constructor
    · show (nextLinkFn u (topOf o.query) (skipOf o.query) o.query total = none) ↔ _
      unfold nextLinkFn
      by_cases hlt : skipOf o.query + topOf o.query < total
      · rw [if_pos hlt]
        constructor
        · intro hx
          exact absurd hx (by simp)
        · intro hx
          omega
      · rw [if_neg hlt]
        constructor
        · intro _
          omega
        · intro _
          rfl
    · intro hlt
      show nextLinkFn u (topOf o.query) (skipOf o.query) o.query total = _
      unfold nextLinkFn
      rw [if_pos hlt]
      rw [show nextLinkPairs (topOf o.query) (skipOf o.query + topOf o.query) o.query =
        ("$top", jsIntToString (topOf o.query)) ::
          ("$skip", jsIntToString (skipOf o.query + topOf o.query)) ::
          optPairsOf o.query from rfl]
      rw [formSerialize_cons_eq_tail, serializeTail]
      simp only [formPair]
      rw [formEncode_all_digits (jsIntToString (topOf o.query))
        (jsIntToString_digits _ (by omega))]
      rw [formEncode_all_digits (jsIntToString (skipOf o.query + topOf o.query))
        (jsIntToString_digits _ (by omega))]
      rw [show formEncode "$top" = "%24top" from rfl,
        show formEncode "$skip" = "%24skip" from rfl]
      have hq : ∀ Z : String, "?" ++ ("%24top" ++ ("=" ++ Z)) = "?%24top=" ++ Z := by
        intro Z
        rw [← String.append_assoc, ← String.append_assoc]
        rfl
      have ha : ∀ Z : String, "&" ++ ("%24skip" ++ ("=" ++ Z)) = "&%24skip=" ++ Z := by
        intro Z
        rw [← String.append_assoc, ← String.append_assoc]
        rfl
      simp only [String.append_assoc]
      rw [hq, ha]
  · intro hsel
    exact serializeTail_includes "$select" (o.query.select.getD "") (optPairsOf o.query)
      (by simp [optPairsOf, hsel])
  · intro hfil
    exact serializeTail_includes "$filter" (o.query.filter.getD "") (optPairsOf o.query)
      (by simp [optPairsOf, hfil])
  · intro hord
    exact serializeTail_includes "$orderby" (o.query.orderby.getD "") (optPairsOf o.query)
      (by simp [optPairsOf, hord])
  · intro hcnt
    exact serializeTail_includes "$count" (o.query.count.getD "") (optPairsOf o.query)
      (by simp [optPairsOf, hcnt])

/-- Options used by the C7 witness: `$top=10&$skip=0&$count=true` with a
base URL. -/
def c7wOptions : BuildOptions :=
  { table := "T", fieldMap := [("A", "COLA")],
    query := { top := some "10", skip := some "0", count := some "true" },
    keyField := "A", baseUrl := some "http://localhost/odata/Property" }

/-- Plan computed by `buildQuery` on the C7 witness options. -/
def c7wPlan : QueryPlan := (buildQuery c7wOptions).toOption.getD default

/-- Witness for C7 at concrete options and totals. -/
theorem buildQuery_next_link_witness :
    c7wOptions.baseUrl = some "http://localhost/odata/Property" ∧
    ("http://localhost/odata/Property" : String) ≠ "" ∧
    buildQuery c7wOptions = .ok c7wPlan ∧
    (∃ f, c7wPlan.nextLinkBuilder = some f ∧
      (∀ total : Int,
        (f total = none ↔ total ≤ c7wPlan.skip + c7wPlan.top) ∧
        (c7wPlan.skip + c7wPlan.top < total →
          f total = some ("http://localhost/odata/Property" ++ "?%24top=" ++
            jsIntToString c7wPlan.top ++ "&%24skip=" ++
            jsIntToString (c7wPlan.skip + c7wPlan.top) ++
            serializeTail (optPairsOf c7wOptions.query)))) ∧
      (jsTruthyStr c7wOptions.query.select = true →
        strIncludes (serializeTail (optPairsOf c7wOptions.query)) "%24select=" = true) ∧
      (jsTruthyStr c7wOptions.query.filter = true →
        strIncludes (serializeTail (optPairsOf c7wOptions.query)) "%24filter=" = true) ∧
      (jsTruthyStr c7wOptions.query.orderby = true →
        strIncludes (serializeTail (optPairsOf c7wOptions.query)) "%24orderby=" = true) ∧
      (jsTruthyStr c7wOptions.query.count = true →
        strIncludes (serializeTail (optPairsOf c7wOptions.query)) "%24count=" = true)) :=
  ⟨rfl, by decide, rfl,
    buildQuery_next_link c7wOptions c7wPlan "http://localhost/odata/Property"
      rfl (by decide) rfl⟩

/-! ## C1: the parameterization invariant of the filter compiler -/

/-- Well-formedness of a token as the lexer produces it: keyword-classified
tokens carry only their keyword values and parens carry `(` or `)`. -/
def wfToken : Token → Bool
  | .operator v => v = "eq" || v = "ne" || v = "gt" || v = "ge" || v = "lt" || v = "le"
  | .logical v => v = "and" || v = "or" || v = "not"
  | .function v => v = "contains" || v = "startswith" || v = "endswith"
  | .literal v => v = "null" || v = "true" || v = "false"
  | .paren v => v = "(" || v = ")"
  | _ => true

/-- Well-formedness of a token stream. -/
def wfTokens (ts : List Token) : Bool := ts.all wfToken

theorem classifyWord_wf (w : String) : wfToken (classifyWord w) = true := by
  unfold classifyWord
  dsimp only
  split
  · rename_i h
    rcases h with h | h | h | h | h | h <;> simp [wfToken, h]
  · split
    · rename_i h
      rcases h with h | h | h <;> simp [wfToken, h]
    · split
      · rename_i h
        rcases h with h | h | h <;> simp [wfToken, h]
      · split
        · rename_i h
          rcases h with h | h | h <;> simp [wfToken, h]
        · simp [wfToken]

/-- The lexer only produces well-formed token streams. -/
theorem tokenizeGo_wf : ∀ cs ts, tokenizeGo cs = .ok ts → wfTokens ts = true := by
  intro cs
  induction cs using tokenizeGo.induct <;>
    intro ts h <;>
    rw [tokenizeGo] at h <;>
    simp_all [wfTokens, wfToken, classifyWord_wf] <;>
    (subst h
     intro x hx
     rcases List.mem_cons.mp hx with hx | hx
     · subst hx
       first
       | rfl
       | exact classifyWord_wf _
       | (rename_i hp _ _
          rcases hp with hp | hp <;> subst hp <;> rfl)
     · solve_by_elim)

/-- Well-formedness of every token the lexer returns. -/
theorem tokenizeFilter_wf (s : String) (ts : List Token)
    (h : tokenizeFilter s = .ok ts) : wfTokens ts = true :=
  tokenizeGo_wf s.data ts h

/-- The user-originated literal values of a token stream in emission
order, with function arguments wrapped into their LIKE patterns — the
reference list the compiler's `params` values must equal. -/
def collectValues : List Token → List JSValue
  | .function f :: .paren "(" :: .identifier _ :: .comma :: .string v :: .paren ")" :: rest =>
    .str (likePattern f v) :: collectValues rest
  | .string v :: rest => .str v :: collectValues rest
  | .number lex :: rest => .numLit lex :: collectValues rest
  | .datetime v :: rest => .str v :: collectValues rest
  | _ :: rest => collectValues rest
  | [] => []

/-- Concatenation of sql text pieces. -/
def concatStrings : List String → String
  | [] => ""
  | s :: rest => s ++ concatStrings rest

/-- A legal piece of emitted WHERE-fragment text: a fixed SQL fragment, a
whitelisted backend column, a `@filterN` placeholder with `N` below the
parameter count, or a whitelisted column followed by ` LIKE @filterN`.
No piece carries request text except through whitelist lookup. -/
def pieceOK (fieldMap : List (String × String)) (nParams : Nat) (p : String) : Prop :=
  p ∈ ([" = ", " != ", " > ", " >= ", " < ", " <= ", " AND ", " OR ", " NOT ",
        "NULL", "1", "0", "(", ")"] : List String) ∨
  (∃ k c, fieldMap.lookup k = some c ∧ p = c) ∨
  (∃ n, n < nParams ∧ p = "@filter" ++ natToDecimal n) ∨
  (∃ k c n, fieldMap.lookup k = some c ∧ n < nParams ∧
    p = c ++ " LIKE @filter" ++ natToDecimal n)

/-- Inversion of one `consRes` iteration. -/
theorem consRes_ok (piece : String) (ps₀ : List (String × JSValue))
    (r : Except String (String × List (String × JSValue) × Nat))
    (sql : String) (ps : List (String × JSValue)) (idx' : Nat)
    (h : consRes piece ps₀ r = .ok (sql, ps, idx')) :
    ∃ sqlr psr, r = .ok (sqlr, psr, idx') ∧ sql = piece ++ sqlr ∧ ps = ps₀ ++ psr := by
  cases r with
  | error e => exact absurd h (by simp [consRes])
  | ok t =>
    obtain ⟨s, p, i⟩ := t
    unfold consRes at h
    injection h with h'
    rw [Prod.mk.injEq, Prod.mk.injEq] at h'
    obtain ⟨h1, h2, h3⟩ := h'
    subst h1
    subst h2
    subst h3
    exact ⟨s, p, rfl, rfl, rfl⟩

/-- The compiler-walk invariant: on well-formed tokens, a successful walk
starting at `paramIndex = idx` ends at `idx + |params|`, names its params
`filter<idx> …` consecutively, records exactly the literal values of the
consumed tokens (in emission order, function arguments LIKE-wrapped), and
emits sql text that is a concatenation of legal pieces. -/
theorem parseTokensGo_invariant (fm : List (String × String)) :
    ∀ ts idx sql ps idx',
      wfTokens ts = true →
      parseTokensGo fm ts idx = .ok (sql, ps, idx') →
      idx' = idx + ps.length ∧
      ps.map Prod.fst =
        (List.range' idx ps.length).map (fun n => "filter" ++ natToDecimal n) ∧
      ps.map Prod.snd = collectValues ts ∧
      ∃ pieces, sql = concatStrings pieces ∧ ∀ p ∈ pieces, pieceOK fm idx' p := by
  intro ts idx
  induction ts, idx using parseTokensGo.induct fm with
  | case1 idx =>
    intro sql ps idx' hwf h
    rw [parseTokensGo] at h
    injection h with h'
    rw [Prod.mk.injEq, Prod.mk.injEq] at h'
    obtain ⟨h1, h2, h3⟩ := h'
    subst h1
    subst h2
    subst h3
    exact ⟨rfl, rfl, rfl, [], rfl, by simp⟩
  | case2 v rest idx hsome ih =>
    intro sql ps idx' hwf h
    rw [parseTokensGo, if_pos hsome] at h
    obtain ⟨sqlr, psr, hrec, hsql, hps⟩ := consRes_ok _ _ _ _ _ _ h
    have hwfr : wfTokens rest = true := by
      simp [wfTokens] at hwf ⊢
      exact fun x hx => hwf.2 x hx
    obtain ⟨hlen, hnames, hvals, pieces, hpcs, hok⟩ := ih _ _ _ hwfr hrec
    subst hsql
    subst hps
    obtain ⟨c, hc⟩ := Option.isSome_iff_exists.mp hsome
    refine ⟨by simpa using hlen, by simpa using hnames, by simpa using hvals,
      jsLookupStr fm v :: pieces, by subst hpcs; rfl, ?_⟩
    intro p hp
    rcases List.mem_cons.mp hp with hp | hp
    · subst hp
      exact Or.inr (Or.inl ⟨v, c, hc, by simp [jsLookupStr, hc]⟩)
    · exact hok p hp
  | case3 v rest idx hnone =>
    intro sql ps idx' hwf h
    rw [parseTokensGo, if_neg hnone] at h
    exact absurd h (by simp)
  | case4 v rest idx ih =>
    intro sql ps idx' hwf h
    rw [parseTokensGo] at h
    obtain ⟨sqlr, psr, hrec, hsql, hps⟩ := consRes_ok _ _ _ _ _ _ h
    rw [show wfTokens (Token.operator v :: rest) =
      (wfToken (Token.operator v) && wfTokens rest) from rfl, Bool.and_eq_true] at hwf
    obtain ⟨hwt, hwfr⟩ := hwf
    obtain ⟨hlen, hnames, hvals, pieces, hpcs, hok⟩ := ih _ _ _ hwfr hrec
    subst hsql
    subst hps
    refine ⟨by simpa using hlen, by simpa using hnames, by simpa using hvals,
      (" " ++ opSql v ++ " ") :: pieces, by subst hpcs; rfl, ?_⟩
    intro p hp
    rcases List.mem_cons.mp hp with hp | hp
    · subst hp
      left
      have hv : v = "eq" ∨ v = "ne" ∨ v = "gt" ∨ v = "ge" ∨ v = "lt" ∨ v = "le" := by
        simpa [wfToken, or_assoc] using hwt
      rcases hv with h' | h' | h' | h' | h' | h' <;> subst h' <;> decide
    · exact hok p hp
  | case5 v rest idx ih =>
    intro sql ps idx' hwf h
    rw [parseTokensGo] at h
    obtain ⟨sqlr, psr, hrec, hsql, hps⟩ := consRes_ok _ _ _ _ _ _ h
    rw [show wfTokens (Token.logical v :: rest) =
      (wfToken (Token.logical v) && wfTokens rest) from rfl, Bool.and_eq_true] at hwf
    obtain ⟨hwt, hwfr⟩ := hwf
    obtain ⟨hlen, hnames, hvals, pieces, hpcs, hok⟩ := ih _ _ _ hwfr hrec
    subst hsql
    subst hps
    refine ⟨by simpa using hlen, by simpa using hnames, by simpa using hvals,
      (" " ++ jsToUpper v ++ " ") :: pieces, by subst hpcs; rfl, ?_⟩
    intro p hp
    rcases List.mem_cons.mp hp with hp | hp
    · subst hp
      left
      have hv : v = "and" ∨ v = "or" ∨ v = "not" := by
        simpa [wfToken, or_assoc] using hwt
      rcases hv with h' | h' | h' <;> subst h' <;> decide
    · exact hok p hp
  | case6 v rest idx ih =>
    intro sql ps idx' hwf h
    rw [parseTokensGo] at h
    obtain ⟨sqlr, psr, hrec, hsql, hps⟩ := consRes_ok _ _ _ _ _ _ h
    have hwfr : wfTokens rest = true := by
      rw [show wfTokens (Token.string v :: rest) =
        (wfToken (Token.string v) && wfTokens rest) from rfl, Bool.and_eq_true] at hwf
      exact hwf.2
    obtain ⟨hlen, hnames, hvals, pieces, hpcs, hok⟩ := ih _ _ _ hwfr hrec
    subst hsql
    subst hps
    refine ⟨by rw [hlen]; simp only [List.length_append, List.length_cons,
        List.length_nil]; omega, ?_,
      by simp [show collectValues (Token.string v :: rest) = JSValue.str v :: collectValues rest from rfl, hvals],
      ("@filter" ++ natToDecimal idx) :: pieces, by subst hpcs; rfl, ?_⟩
    · rw [show List.range' idx (([("filter" ++ natToDecimal idx, JSValue.str v)] ++ psr).length) =
        idx :: List.range' (idx + 1) psr.length from rfl]
      simpa using hnames
    · intro p hp
      rcases List.mem_cons.mp hp with hp | hp
      · subst hp
        exact Or.inr (Or.inr (Or.inl ⟨idx, by omega, rfl⟩))
      · exact hok p hp
  | case7 lex rest idx ih =>
    intro sql ps idx' hwf h
    rw [parseTokensGo] at h
    obtain ⟨sqlr, psr, hrec, hsql, hps⟩ := consRes_ok _ _ _ _ _ _ h
    have hwfr : wfTokens rest = true := by
      rw [show wfTokens (Token.number lex :: rest) =
        (wfToken (Token.number lex) && wfTokens rest) from rfl, Bool.and_eq_true] at hwf
      exact hwf.2
    obtain ⟨hlen, hnames, hvals, pieces, hpcs, hok⟩ := ih _ _ _ hwfr hrec
    subst hsql
    subst hps
    refine ⟨by rw [hlen]; simp only [List.length_append, List.length_cons,
        List.length_nil]; omega, ?_,
      by simp [show collectValues (Token.number lex :: rest) = JSValue.numLit lex :: collectValues rest from rfl, hvals],
      ("@filter" ++ natToDecimal idx) :: pieces, by subst hpcs; rfl, ?_⟩
    · rw [show List.range' idx (([("filter" ++ natToDecimal idx, JSValue.numLit lex)] ++ psr).length) =
        idx :: List.range' (idx + 1) psr.length from rfl]
      simpa using hnames
    · intro p hp
      rcases List.mem_cons.mp hp with hp | hp
      · subst hp
        exact Or.inr (Or.inr (Or.inl ⟨idx, by omega, rfl⟩))
      · exact hok p hp
  | case8 v rest idx ih =>
    intro sql ps idx' hwf h
    rw [parseTokensGo] at h
    obtain ⟨sqlr, psr, hrec, hsql, hps⟩ := consRes_ok _ _ _ _ _ _ h
    have hwfr : wfTokens rest = true := by
      rw [show wfTokens (Token.datetime v :: rest) =
        (wfToken (Token.datetime v) && wfTokens rest) from rfl, Bool.and_eq_true] at hwf
      exact hwf.2
    obtain ⟨hlen, hnames, hvals, pieces, hpcs, hok⟩ := ih _ _ _ hwfr hrec
    subst hsql
    subst hps
    refine ⟨by rw [hlen]; simp only [List.length_append, List.length_cons,
        List.length_nil]; omega, ?_,
      by simp [show collectValues (Token.datetime v :: rest) = JSValue.str v :: collectValues rest from rfl, hvals],
      ("@filter" ++ natToDecimal idx) :: pieces, by subst hpcs; rfl, ?_⟩
    · rw [show List.range' idx (([("filter" ++ natToDecimal idx, JSValue.str v)] ++ psr).length) =
        idx :: List.range' (idx + 1) psr.length from rfl]
      simpa using hnames
    · intro p hp
      rcases List.mem_cons.mp hp with hp | hp
      · subst hp
        exact Or.inr (Or.inr (Or.inl ⟨idx, by omega, rfl⟩))
      · exact hok p hp
  | case9 v rest idx ih =>
    intro sql ps idx' hwf h
    rw [parseTokensGo] at h
    obtain ⟨sqlr, psr, hrec, hsql, hps⟩ := consRes_ok _ _ _ _ _ _ h
    rw [show wfTokens (Token.literal v :: rest) =
      (wfToken (Token.literal v) && wfTokens rest) from rfl, Bool.and_eq_true] at hwf
    obtain ⟨hwt, hwfr⟩ := hwf
    obtain ⟨hlen, hnames, hvals, pieces, hpcs, hok⟩ := ih _ _ _ hwfr hrec
    subst hsql
    subst hps
    refine ⟨by simpa using hlen, by simpa using hnames, by simpa using hvals,
      (if v = "null" then "NULL" else if v = "true" then "1"
        else if v = "false" then "0" else "") :: pieces, by subst hpcs; rfl, ?_⟩
    intro p hp
    rcases List.mem_cons.mp hp with hp | hp
    · subst hp
      left
      have hv : v = "null" ∨ v = "true" ∨ v = "false" := by
        simpa [wfToken, or_assoc] using hwt
      rcases hv with h' | h' | h' <;> subst h' <;> decide
    · exact hok p hp
  | case18 v rest idx ih =>
    intro sql ps idx' hwf h
    rw [parseTokensGo] at h
    obtain ⟨sqlr, psr, hrec, hsql, hps⟩ := consRes_ok _ _ _ _ _ _ h
    rw [show wfTokens (Token.paren v :: rest) =
      (wfToken (Token.paren v) && wfTokens rest) from rfl, Bool.and_eq_true] at hwf
    obtain ⟨hwt, hwfr⟩ := hwf
    obtain ⟨hlen, hnames, hvals, pieces, hpcs, hok⟩ := ih _ _ _ hwfr hrec
    subst hsql
    subst hps
    refine ⟨by simpa using hlen, by simpa using hnames, by simpa using hvals,
      v :: pieces, by subst hpcs; rfl, ?_⟩
    intro q hq
    rcases List.mem_cons.mp hq with hq | hq
    · rw [hq]
      left
      have hv : v = "(" ∨ v = ")" := by
        simpa [wfToken, or_assoc] using hwt
      rcases hv with h' | h' <;> subst h' <;> decide
    · exact hok q hq
  | case19 tail idx =>
    intro sql ps idx' hwf h
    rw [parseTokensGo] at h
    exact absurd h (by simp)
  | case10 f idx x hsome v rest5 hf ih =>
    intro sql ps idx' hwf h
    rw [parseTokensGo] at h
    rw [if_pos hsome, if_pos hf] at h
    obtain ⟨sqlr, psr, hrec, hsql, hps⟩ := consRes_ok _ _ _ _ _ _ h
    have hwfr : wfTokens rest5 = true := by
      simp [wfTokens] at hwf ⊢
      intro t ht
      exact hwf.2.2.2.2.2.2 t ht
    obtain ⟨hlen, hnames, hvals, pieces, hpcs, hok⟩ := ih _ _ _ hwfr hrec
    subst hsql
    subst hps
    obtain ⟨c, hc⟩ := Option.isSome_iff_exists.mp hsome
    refine ⟨by rw [hlen]; simp only [List.length_append, List.length_cons,
        List.length_nil]; omega, ?_,
      by simp [show collectValues (Token.function f :: Token.paren "(" ::
          Token.identifier x :: Token.comma :: Token.string v :: Token.paren ")" :: rest5) =
        JSValue.str (likePattern f v) :: collectValues rest5 from rfl, hvals],
      ((fm.lookup x).getD "undefined" ++ " LIKE @filter" ++ natToDecimal idx) :: pieces,
      by subst hpcs; rfl, ?_⟩
    · rw [show List.range' idx
        (([("filter" ++ natToDecimal idx, JSValue.str (likePattern f v))] ++ psr).length) =
        idx :: List.range' (idx + 1) psr.length from rfl]
      simpa using hnames
    · intro p hp
      rcases List.mem_cons.mp hp with hp | hp
      · subst hp
        exact Or.inr (Or.inr (Or.inr ⟨x, c, idx, hc, by omega, by simp [hc]⟩))
      · exact hok p hp
  | case11 f idx x hsome v rest5 hf ih =>
    intro sql ps idx' hwf h
    exfalso
    rw [show wfTokens (Token.function f :: Token.paren "(" :: Token.identifier x ::
      Token.comma :: Token.string v :: Token.paren ")" :: rest5) =
      (wfToken (Token.function f) && wfTokens (Token.paren "(" :: Token.identifier x ::
        Token.comma :: Token.string v :: Token.paren ")" :: rest5)) from rfl,
      Bool.and_eq_true] at hwf
    apply hf
    simpa [wfToken, or_assoc] using hwf.1
  | case12 f idx x hsome v rest4 hshape =>
    intro sql ps idx' hwf h
    rw [parseTokensGo, if_pos hsome] at h
    exact absurd h (by simp)
    exact hshape
  | case13 f idx x hsome tail hshape =>
    intro sql ps idx' hwf h
    rw [parseTokensGo, if_pos hsome] at h
    exact absurd h (by simp)
    exact hshape
  | case14 f idx x rest2 hsome hshape1 hshape2 =>
    intro sql ps idx' hwf h
    rw [parseTokensGo, if_pos hsome] at h
    exact absurd h (by simp)
    exact hshape1
    exact hshape2
  | case15 f idx x rest2 hnone =>
    intro sql ps idx' hwf h
    rw [parseTokensGo.eq_def] at h
    dsimp only at h
    split at h
    rotate_left
    · exact absurd h (by simp)
    · exact absurd h (by simp)
    rename_i x2 rest3 heq
    obtain ⟨hx2, hr3⟩ : x2 = x ∧ rest3 = rest2 := by simpa using heq.symm
    subst hx2
    rw [if_neg hnone] at h
    exact absurd h (by simp)
  | case16 f idx tail hshape =>
    intro sql ps idx' hwf h
    rw [parseTokensGo] at h
    exact absurd h (by simp)
    exact hshape
  | case17 f rest idx hshape1 hshape2 =>
    intro sql ps idx' hwf h
    rw [parseTokensGo] at h
    exact absurd h (by simp)
    exact hshape1
    exact hshape2

/-- C1 (amended): the parameterization invariant of the filter compiler.
Whenever `parseFilter` succeeds on a supplied `$filter` string, the
returned `params` carry exactly the user-originated literal values of the
token stream (strings, numbers, datetimes, and function arguments as
their LIKE patterns) in emission order, under the generated names
`filter0`, `filter1`, …; and the returned `sql` text is a concatenation
of pieces, each one a fixed SQL fragment, a whitelisted field-map column,
a `@filterN` placeholder with `N` below the parameter count, or a column
followed by ` LIKE @filterN` — no piece carries raw request text.  (The
claim's stronger "a literal is never a substring of the sql text" fails
when a literal's text coincides with a column name or fixed fragment:
see `parseFilter_literal_substring`.)  -/
theorem parseFilter_parameterization (fm : List (String × String))
    (s : String) (r : FilterResult)
    (hs : jsTruthyStr (some s) = true)
    (h : parseFilter fm (some s) = .ok r) :
    ∃ ts, tokenizeFilter s = .ok ts ∧
      r.params.map Prod.fst =
        (List.range' 0 r.params.length).map (fun n => "filter" ++ natToDecimal n) ∧
      r.params.map Prod.snd = collectValues ts ∧
      ∃ pieces, r.sql = concatStrings pieces ∧
        ∀ p ∈ pieces, pieceOK fm r.params.length p := by
  unfold parseFilter at h
  rw [if_pos hs] at h
  simp only [Option.getD_some] at h
  cases hts : tokenizeFilter s with
  | error e =>
    rw [hts] at h
    exact absurd h (by simp [Bind.bind, Except.bind])
  | ok ts =>
    rw [hts] at h
    dsimp only [Bind.bind, Except.bind] at h
    unfold parseFilterTokens at h
    cases hgo : parseTokensGo fm ts 0 with
    | error e =>
      rw [hgo] at h
      exact absurd h (by simp)
    | ok t =>
      obtain ⟨sql, ps, idx'⟩ := t
      rw [hgo] at h
      dsimp only at h
      injection h with h'
      obtain ⟨hlen, hnames, hvals, pieces, hpcs, hok⟩ :=
        parseTokensGo_invariant fm ts 0 sql ps idx' (tokenizeFilter_wf s ts hts) hgo
      refine ⟨ts, rfl, ?_, ?_, pieces, ?_, ?_⟩
      · rw [← h']
        exact hnames
      · rw [← h']
        exact hvals
      · rw [← h']
        exact hpcs
      · intro p hp
        have hpk := hok p hp
        rw [hlen, Nat.zero_add] at hpk
        rw [← h']
        exact hpk

/-- C1 (counterexample): the claim's clause "a user-supplied literal never
occurs as a substring of the sql text" fails when the literal's text
coincides with a whitelisted column name: the filter `City eq 'CITY'`
compiles (fully parameterized, the value only in `params`) to the sql
`CITY = @filter0`, which contains the literal's text `CITY`. -/
theorem parseFilter_literal_substring :
    parseFilter [("City", "CITY")] (some "City eq 'CITY'") =
      .ok ⟨"CITY = @filter0", [("filter0", JSValue.str "CITY")]⟩ ∧
    strIncludes "CITY = @filter0" "CITY" = true := by
  refine ⟨?_, by decide⟩
  simp +decide [parseFilter, jsTruthyStr, tokenizeFilter, tokenizeGo, scanString,
    parseFilterTokens, parseTokensGo, consRes, natToDecimal, natToDecimalAux,
    classifyWord, opSql, jsToLower, Bind.bind, Except.bind]

/-- The filter result of `City eq 'Boston'` over the one-column field map. -/
def c1R : FilterResult := ⟨"CITY = @filter0", [("filter0", JSValue.str "Boston")]⟩

theorem c1_eval : parseFilter [("City", "CITY")] (some "City eq 'Boston'") = .ok c1R := by
  simp +decide [c1R, parseFilter, jsTruthyStr, tokenizeFilter, tokenizeGo, scanString,
    parseFilterTokens, parseTokensGo, consRes, natToDecimal, natToDecimalAux,
    classifyWord, opSql, jsToLower, Bind.bind, Except.bind]

/-- C1 witness: the invariant at the concrete filter `City eq 'Boston'`. -/
theorem parseFilter_parameterization_witness :
    jsTruthyStr (some "City eq 'Boston'") = true ∧
    parseFilter [("City", "CITY")] (some "City eq 'Boston'") = .ok c1R ∧
    (∃ ts, tokenizeFilter "City eq 'Boston'" = .ok ts ∧
      c1R.params.map Prod.fst =
        (List.range' 0 c1R.params.length).map (fun n => "filter" ++ natToDecimal n) ∧
      c1R.params.map Prod.snd = collectValues ts ∧
      ∃ pieces, c1R.sql = concatStrings pieces ∧
        ∀ p ∈ pieces, pieceOK [("City", "CITY")] c1R.params.length p) :=
  ⟨by decide, c1_eval,
    parseFilter_parameterization [("City", "CITY")] "City eq 'Boston'" c1R
      (by decide) c1_eval⟩
